import Mathlib

/-!
# Fornex DNS client

A shallow embedding of `internal/client/client.go` of the Fornex Terraform
provider, and the properties of it that the specification states.

Conventions of the embedding:

* a Go `string` or `[]byte` is a `String` (Unicode text), a Go `int` is an `Int`
  that lies in the 64-bit range (`inInt64`);
* a Go pointer or slice that may be `nil` is an `Option`, `none` being `nil`;
* a Go function returning `(T, error)` returns both components, each of which
  may be `nil` independently, as the Go function does;
* the network and the standard library's request validation are the
  environment `Env`; every request handed to `HTTPClient.Do` is appended to an
  explicit log that the operations thread through;
* `encoding/json` is modelled on the text: `render` writes a value as
  `json.Marshal` does, `parseJson` reads a text as the scanner of
  `json.Unmarshal` does, and the decoders follow `Unmarshal` into the client's
  types (a type mismatch is saved and decoding goes on, a key selects a field
  by exact name or under case folding, `null` clears pointers and slices and
  leaves other fields as they are).
-/

namespace Fornex

/-! ## Errors, requests and responses -/

/-- Go `error` values returned by the client, by origin. `errorf` is an error
built with `fmt.Errorf`, carrying its exact text; the others stand for errors
built by the standard library, carrying the library's description. -/
inductive GoError where
  | errorf (text : String)
  | newRequest (cause : String)
  | transport (cause : String)
  | bodyRead (cause : String)
  | jsonSyntax
  | jsonType (value : String) (target : String)
  deriving DecidableEq

/-- An `http.Header`: the value lists stored under each key. -/
structure Header where
  entries : List (String × List String)
  deriving DecidableEq

/-- The header map of a request made by `http.NewRequest`: empty. -/
def Header.empty : Header := ⟨[]⟩

/-- `Header.Set(key, value)` for a key in canonical form (both keys that
`doRequest` sets are): the values under `key` are replaced by the single
`value`. -/
def Header.Set (h : Header) (key value : String) : Header :=
  ⟨(key, [value]) :: h.entries.filter (fun kv => kv.1 != key)⟩

/-- `Header.Values(key)` for a key in canonical form: all values stored under
`key`, none when the key is absent. -/
def Header.Values (h : Header) (key : String) : List String :=
  match h.entries.lookup key with
  | some vs => vs
  | none => []

/-- The fields of an `http.Request` that the client sets. `Body` is `none` for
the `nil` body of GET and DELETE requests. -/
structure Request where
  Method : String
  URL : String
  Header : Header
  Body : Option String
  deriving DecidableEq

/-- An `http.Response` as `doRequest` reads it: the status code and the
outcome of `io.ReadAll(res.Body)`. -/
structure Response where
  StatusCode : Int
  Body : Except String String

/-- The environment of the client. `newRequestErr method url` is the error with
which `http.NewRequest` rejects a method and URL (`none` when it builds the
request); `roundTrip sent req` is the outcome of `HTTPClient.Do(req)` after the
requests `sent` have been made. -/
structure Env where
  newRequestErr : String → String → Option String
  roundTrip : List Request → Request → Except String Response

/-- The `http.Client` of the Go client: only its timeout, in nanoseconds. -/
structure HTTPClient where
  Timeout : Nat
  deriving DecidableEq

/-- The Go `Client` struct. -/
structure Client where
  BaseURL : String
  APIKey : String
  HTTPClient : HTTPClient
  deriving DecidableEq

/-- What a Go function of type `(T, error)` returns, with the log of the
requests made so far. `val = none` is a `nil` result, `err = none` a `nil`
error. -/
structure Ret (α : Type) where
  val : Option α
  err : Option GoError
  sent : List Request

/-- What a Go function of type `error` returns, with the log of requests. -/
structure RetErr where
  err : Option GoError
  sent : List Request

/-! ## Decimal formatting (`%d`) -/

/-- The character of a decimal digit. -/
def digitChar (d : Nat) : Char :=
  match d with
  | 0 => '0' | 1 => '1' | 2 => '2' | 3 => '3' | 4 => '4'
  | 5 => '5' | 6 => '6' | 7 => '7' | 8 => '8' | _ => '9'

/-- The decimal digits of `n`, most significant first; `fuel` bounds their
number. -/
def natDigits : Nat → Nat → List Char
  | 0, _ => []
  | fuel + 1, n =>
    if n < 10 then [digitChar n] else natDigits fuel (n / 10) ++ [digitChar (n % 10)]

/-- The decimal form of a natural number. -/
def fmtNat (n : Nat) : List Char := natDigits (n + 1) n

/-- The decimal form of an integer, as `%d` and `strconv.Itoa` write it. -/
def fmtInt : Int → List Char
  | Int.ofNat n => fmtNat n
  | Int.negSucc n => '-' :: fmtNat (n + 1)

/-- The `%d` verb as a string. -/
def sprintInt (i : Int) : String := String.mk (fmtInt i)

/-! ## Transport: `doRequest` -/

/-- Lines 38-39 of `doRequest`: the two `req.Header.Set` calls. -/
def setHeaders (c : Client) (req : Request) : Request :=
  { req with
    Header := (req.Header.Set "Authorization" ("Api-Key " ++ c.APIKey)).Set
      "Content-Type" "application/json" }

/-- `Client.doRequest`: set the two headers, perform the round trip, read the
body, and classify by status code. -/
def doRequest (env : Env) (c : Client) (req : Request) (sent : List Request) :
    Ret String :=
  let req := setHeaders c req
  match env.roundTrip sent req with
  | .error e => ⟨none, some (.transport e), sent ++ [req]⟩
  | .ok res =>
    match res.Body with
    | .error e => ⟨none, some (.bodyRead e), sent ++ [req]⟩
    | .ok body =>
      if res.StatusCode < 200 ∨ res.StatusCode ≥ 300 then
        ⟨none, some (.errorf ("status: " ++ sprintInt res.StatusCode ++ ", body: " ++ body)),
          sent ++ [req]⟩
      else
        ⟨some body, none, sent ++ [req]⟩

/-! ## JSON text (`encoding/json`) -/

/-- A JSON value as `encoding/json` scans it. A number keeps its literal. -/
inductive Json where
  | null
  | bool (b : Bool)
  | num (lit : List Char)
  | str (s : String)
  | arr (xs : List Json)
  | obj (kvs : List (String × Json))

/-- The double quote. -/
def quote : Char := Char.ofNat 34

/-- The backslash. -/
def backslash : Char := Char.ofNat 92

/-- The lower-case hexadecimal digit of a value below 16. -/
def hexDigit (d : Nat) : Char :=
  match d with
  | 0 => '0' | 1 => '1' | 2 => '2' | 3 => '3' | 4 => '4' | 5 => '5' | 6 => '6' | 7 => '7'
  | 8 => '8' | 9 => '9' | 10 => 'a' | 11 => 'b' | 12 => 'c' | 13 => 'd' | 14 => 'e'
  | _ => 'f'

/-- The value of a hexadecimal digit of either case. -/
def hexVal (c : Char) : Option Nat :=
  if '0' ≤ c ∧ c ≤ '9' then some (c.toNat - 48)
  else if 'a' ≤ c ∧ c ≤ 'f' then some (c.toNat - 87)
  else if 'A' ≤ c ∧ c ≤ 'F' then some (c.toNat - 55)
  else none

/-- How `json.Marshal` writes one character of a string. -/
def escapeChar (c : Char) : List Char :=
  if c = quote ∨ c = backslash then [backslash, c]
  else if c.toNat = 8 then [backslash, 'b']
  else if c.toNat = 12 then [backslash, 'f']
  else if c.toNat = 10 then [backslash, 'n']
  else if c.toNat = 13 then [backslash, 'r']
  else if c.toNat = 9 then [backslash, 't']
  else if c.toNat < 32 ∨ c = '<' ∨ c = '>' ∨ c = '&' then
    [backslash, 'u', '0', '0', hexDigit (c.toNat / 16), hexDigit (c.toNat % 16)]
  else if c.toNat = 8232 then [backslash, 'u', '2', '0', '2', '8']
  else if c.toNat = 8233 then [backslash, 'u', '2', '0', '2', '9']
  else [c]

/-- The escaped characters of a string. -/
def escapeChars : List Char → List Char
  | [] => []
  | c :: cs => escapeChar c ++ escapeChars cs

/-- A JSON string literal. -/
def renderString (s : String) : List Char :=
  quote :: (escapeChars s.data ++ [quote])

mutual
/-- The compact text of a JSON value, as `json.Marshal` writes it. -/
def render : Json → List Char
  | .null => ['n', 'u', 'l', 'l']
  | .bool true => ['t', 'r', 'u', 'e']
  | .bool false => ['f', 'a', 'l', 's', 'e']
  | .num lit => lit
  | .str s => renderString s
  | .arr xs => '[' :: (renderElems xs ++ [']'])
  | .obj kvs => Char.ofNat 123 :: (renderMembers kvs ++ [Char.ofNat 125])
/-- The elements of an array, separated by commas. -/
def renderElems : List Json → List Char
  | [] => []
  | [x] => render x
  | x :: y :: r => render x ++ ',' :: renderElems (y :: r)
/-- The members of an object, separated by commas. -/
def renderMembers : List (String × Json) → List Char
  | [] => []
  | [(k, v)] => renderString k ++ ':' :: render v
  | (k, v) :: m :: r => renderString k ++ ':' :: render v ++ ',' :: renderMembers (m :: r)
end

/-- Skip JSON white space. -/
def skipWs : List Char → List Char
  | [] => []
  | c :: r => if c = ' ' ∨ c = '\t' ∨ c = '\r' ∨ c = '\n' then skipWs r else c :: r

/-- The four hexadecimal digits after a backslash and u, as a number. -/
def getu4 : List Char → Option (Nat × List Char)
  | b :: u :: h1 :: h2 :: h3 :: h4 :: r =>
    if b = backslash ∧ u = 'u' then
      match hexVal h1, hexVal h2, hexVal h3, hexVal h4 with
      | some a, some b, some c, some d => some (((a * 16 + b) * 16 + c) * 16 + d, r)
      | _, _, _, _ => none
    else none
  | _ => none

/-- Read one character of a string literal, escaped or not: the character and
the rest of the input. A lone surrogate escape reads as U+FFFD. -/
def readChar : List Char → Option (Char × List Char)
  | [] => none
  | c :: r =>
    if c = backslash then
      match r with
      | [] => none
      | e :: r1 =>
        if e = quote ∨ e = backslash ∨ e = '/' then some (e, r1)
        else if e = 'b' then some (Char.ofNat 8, r1)
        else if e = 'f' then some (Char.ofNat 12, r1)
        else if e = 'n' then some (Char.ofNat 10, r1)
        else if e = 'r' then some (Char.ofNat 13, r1)
        else if e = 't' then some (Char.ofNat 9, r1)
        else if e = 'u' then
          match getu4 (c :: r) with
          | none => none
          | some (rr, r2) =>
            if 55296 ≤ rr ∧ rr < 57344 then
              match getu4 r2 with
              | some (rr1, r3) =>
                if rr < 56320 ∧ 56320 ≤ rr1 ∧ rr1 < 57344 then
                  some (Char.ofNat ((rr - 55296) * 1024 + (rr1 - 56320) + 65536), r3)
                else some (Char.ofNat 65533, r2)
              | none => some (Char.ofNat 65533, r2)
            else some (Char.ofNat rr, r2)
        else none
    else if c.toNat < 32 then none
    else some (c, r)

/-- The characters of a string literal after its opening quote, up to the
closing quote, and the rest of the input. -/
def parseString : Nat → List Char → Option (List Char × List Char)
  | 0, _ => none
  | fuel + 1, cs =>
    match cs with
    | [] => none
    | c :: r =>
      if c = quote then some ([], r)
      else
        match readChar (c :: r) with
        | none => none
        | some (x, r1) =>
          match parseString fuel r1 with
          | none => none
          | some (s, r2) => some (x :: s, r2)

/-- A decimal digit. -/
def isDigit (c : Char) : Bool := decide ('0' ≤ c ∧ c ≤ '9')

/-- The optional fraction of a number literal. -/
def scanFrac : List Char → Option (List Char × List Char)
  | [] => some ([], [])
  | c :: r =>
    if c = '.' then
      if r.takeWhile isDigit = [] then none
      else some ('.' :: r.takeWhile isDigit, r.dropWhile isDigit)
    else some ([], c :: r)

/-- The digits of an exponent, after its optional sign. -/
def scanExpDigits (pre : List Char) (r : List Char) : Option (List Char × List Char) :=
  if r.takeWhile isDigit = [] then none
  else some (pre ++ r.takeWhile isDigit, r.dropWhile isDigit)

/-- The optional exponent of a number literal. -/
def scanExp : List Char → Option (List Char × List Char)
  | [] => some ([], [])
  | e :: r =>
    if e = 'e' ∨ e = 'E' then
      match r with
      | s :: r1 => if s = '+' ∨ s = '-' then scanExpDigits [e, s] r1 else scanExpDigits [e] r
      | [] => none
    else some ([], e :: r)

/-- The integer part of a number literal: a zero, or digits not starting with
zero. -/
def scanIntPart : List Char → Option (List Char × List Char)
  | [] => none
  | c :: r =>
    if c = '0' then some (['0'], r)
    else if isDigit c then some (c :: r.takeWhile isDigit, r.dropWhile isDigit)
    else none

/-- A number literal after its optional minus sign. -/
def scanUnsigned (cs : List Char) : Option (List Char × List Char) :=
  match scanIntPart cs with
  | none => none
  | some (i, r1) =>
    match scanFrac r1 with
    | none => none
    | some (f, r2) =>
      match scanExp r2 with
      | none => none
      | some (e, r3) => some (i ++ f ++ e, r3)

/-- A number literal and the rest of the input. -/
def scanNumber : List Char → Option (List Char × List Char)
  | [] => none
  | c :: r =>
    if c = '-' then
      match scanUnsigned r with
      | none => none
      | some (l, r1) => some ('-' :: l, r1)
    else scanUnsigned (c :: r)

/-- The elements of a non-empty array after its opening bracket, up to the
closing bracket; `pv` parses one value. -/
def parseElems (pv : List Char → Option (Json × List Char)) :
    Nat → List Char → Option (List Json × List Char)
  | 0, _ => none
  | fuel + 1, cs =>
    match pv cs with
    | none => none
    | some (v, r) =>
      match skipWs r with
      | [] => none
      | d :: r1 =>
        if d = ',' then
          match parseElems pv fuel r1 with
          | none => none
          | some (vs, r2) => some (v :: vs, r2)
        else if d = ']' then some ([v], r1)
        else none

/-- The members of a non-empty object after its opening brace, up to the
closing brace; `pv` parses one value. -/
def parseMembers (pv : List Char → Option (Json × List Char)) :
    Nat → List Char → Option (List (String × Json) × List Char)
  | 0, _ => none
  | fuel + 1, cs =>
    match skipWs cs with
    | [] => none
    | q :: r =>
      if q = quote then
        match parseString (r.length + 1) r with
        | none => none
        | some (k, r1) =>
          match skipWs r1 with
          | [] => none
          | p :: r2 =>
            if p = ':' then
              match pv r2 with
              | none => none
              | some (v, r3) =>
                match skipWs r3 with
                | [] => none
                | d :: r4 =>
                  if d = ',' then
                    match parseMembers pv fuel r4 with
                    | none => none
                    | some (ms, r5) => some ((String.mk k, v) :: ms, r5)
                  else if d = Char.ofNat 125 then some ([(String.mk k, v)], r4)
                  else none
            else none
      else none

/-- One JSON value at the head of the input, after white space, and the rest
of the input. The first argument is the nesting that is still allowed. -/
def parseValue : Nat → List Char → Option (Json × List Char)
  | 0, _ => none
  | depth + 1, cs =>
    match skipWs cs with
    | [] => none
    | c :: r =>
      if c = 'n' then
        match r with
        | 'u' :: 'l' :: 'l' :: r1 => some (.null, r1)
        | _ => none
      else if c = 't' then
        match r with
        | 'r' :: 'u' :: 'e' :: r1 => some (.bool true, r1)
        | _ => none
      else if c = 'f' then
        match r with
        | 'a' :: 'l' :: 's' :: 'e' :: r1 => some (.bool false, r1)
        | _ => none
      else if c = quote then
        match parseString (r.length + 1) r with
        | none => none
        | some (s, r1) => some (.str (String.mk s), r1)
      else if c = '[' then
        if depth = 0 then none
        else
          match skipWs r with
          | [] => none
          | d :: r1 =>
            if d = ']' then some (.arr [], r1)
            else
              match parseElems (parseValue depth) (r.length + 1) r with
              | none => none
              | some (xs, r2) => some (.arr xs, r2)
      else if c = Char.ofNat 123 then
        if depth = 0 then none
        else
          match skipWs r with
          | [] => none
          | d :: r1 =>
            if d = Char.ofNat 125 then some (.obj [], r1)
            else
              match parseMembers (parseValue depth) (r.length + 1) r with
              | none => none
              | some (kvs, r2) => some (.obj kvs, r2)
      else if c = '-' ∨ isDigit c then
        match scanNumber (c :: r) with
        | none => none
        | some (l, r1) => some (.num l, r1)
      else none

/-- The nesting depth that `encoding/json` accepts. -/
def maxNestingDepth : Nat := 10000

/-- A whole JSON text: one value, surrounded by white space only. `none` is
the syntax error of `json.Unmarshal`. -/
def parseJson (data : String) : Option Json :=
  match parseValue (maxNestingDepth + 1) data.data with
  | none => none
  | some (j, r) => if skipWs r = [] then some j else none

/-! ## `strconv.ParseInt` -/

/-- The 64-bit range of a Go `int`. -/
def inInt64 (i : Int) : Prop := -9223372036854775808 ≤ i ∧ i ≤ 9223372036854775807

instance (i : Int) : Decidable (inInt64 i) := by
  unfold inInt64
  infer_instance

/-- The value of a non-empty run of decimal digits. -/
def parseNat (cs : List Char) : Option Nat :=
  if cs ≠ [] ∧ cs.all isDigit then
    some (cs.foldl (fun acc c => 10 * acc + (c.toNat - 48)) 0)
  else none

/-- `strconv.ParseInt(s, 10, 64)`: an optional sign and decimal digits, within
the 64-bit range; `none` stands for its error. -/
def parseInt (cs : List Char) : Option Int :=
  let v : Option Int :=
    match cs with
    | [] => none
    | c :: r =>
      if c = '-' then Option.map (fun (n : Nat) => -(Int.ofNat n)) (parseNat r)
      else if c = '+' then Option.map Int.ofNat (parseNat r)
      else Option.map Int.ofNat (parseNat (c :: r))
  match v with
  | none => none
  | some i => if inInt64 i then some i else none

/-! ## Domain types -/

/-- The Go `Entry` struct. `TTL` and `Priority` are `*int`; `Type_` is the
field `Type`. -/
structure Entry where
  ID : Int
  Host : String
  Type_ : String
  TTL : Option Int
  Value : String
  Priority : Option Int
  deriving DecidableEq

/-- The Go `Domain` struct. `EntrySet` and `Tags` are slices, `none` when
`nil`. -/
structure Domain where
  Name : String
  Created : String
  Updated : String
  EntrySet : Option (List Entry)
  Tags : Option (List String)
  deriving DecidableEq

/-- The Go `DomainRequest` struct. -/
structure DomainRequest where
  Name : String
  IP : String
  deriving DecidableEq

/-- The zero value of `Entry` (`var newEntry Entry`). -/
def Entry.zero : Entry := ⟨0, "", "", none, "", none⟩

/-- The zero value of `Domain` (`var domain Domain`). -/
def Domain.zero : Domain := ⟨"", "", "", none, none⟩

/-- The zero value of `DomainRequest`. -/
def DomainRequest.zero : DomainRequest := ⟨"", ""⟩

/-- The integer behind a `*int`, if any, is in the 64-bit range. -/
def inInt64Opt : Option Int → Prop
  | none => True
  | some i => inInt64 i

instance : (o : Option Int) → Decidable (inInt64Opt o)
  | none => isTrue trivial
  | some i => inferInstanceAs (Decidable (inInt64 i))

/-- The integers of an entry are Go `int`s. -/
def Entry.wf (e : Entry) : Prop :=
  inInt64 e.ID ∧ inInt64Opt e.TTL ∧ inInt64Opt e.Priority

instance (e : Entry) : Decidable e.wf := by
  unfold Entry.wf
  infer_instance

/-- The integers of the entries of a slice are Go `int`s. -/
def entriesWf : Option (List Entry) → Prop
  | none => True
  | some es => ∀ e ∈ es, e.wf

instance : (o : Option (List Entry)) → Decidable (entriesWf o)
  | none => isTrue trivial
  | some es => inferInstanceAs (Decidable (∀ e ∈ es, e.wf))

/-- The integers of the entries of a domain are Go `int`s. -/
def Domain.wf (d : Domain) : Prop := entriesWf d.EntrySet

instance (d : Domain) : Decidable d.wf := by
  unfold Domain.wf
  infer_instance

/-! ## `json.Marshal` of the client's types -/

/-- A Go `int` as a JSON number. -/
def marshalInt (i : Int) : Json := .num (fmtInt i)

/-- An `Entry` as a JSON object, by its struct tags: `id` and `prio` carry
`omitempty`, `ttl` does not, so a `nil` TTL is written as `null`. -/
def marshalEntry (e : Entry) : Json :=
  .obj ((if e.ID = 0 then [] else [("id", marshalInt e.ID)]) ++
    [("host", .str e.Host),
     ("type", .str e.Type_),
     ("ttl", match e.TTL with
       | none => .null
       | some t => marshalInt t),
     ("value", .str e.Value)] ++
    (match e.Priority with
      | none => []
      | some p => [("prio", marshalInt p)]))

/-- A slice as a JSON array, `null` when the slice is `nil`. -/
def marshalSlice {α : Type} (f : α → Json) : Option (List α) → Json
  | none => .null
  | some xs => .arr (xs.map f)

/-- A `Domain` as a JSON object, by its struct tags. -/
def marshalDomain (d : Domain) : Json :=
  .obj [("name", .str d.Name),
        ("created", .str d.Created),
        ("updated", .str d.Updated),
        ("entry_set", marshalSlice marshalEntry d.EntrySet),
        ("tags", marshalSlice Json.str d.Tags)]

/-- A `DomainRequest` as a JSON object, by its struct tags. -/
def marshalDomainRequest (r : DomainRequest) : Json :=
  .obj [("name", .str r.Name), ("ip", .str r.IP)]

/-- The bytes that `json.Marshal` returns for a value with the given JSON
form. For the client's types `json.Marshal` has no error. -/
def Marshal (j : Json) : String := String.mk (render j)

/-! ## `json.Unmarshal` into the client's types

A decoder takes the value already stored in the target and the JSON value, and
returns the new stored value and the error it saves. A type mismatch leaves
the target as it is, saves an `UnmarshalTypeError` and goes on; of several
errors the first one saved is returned. -/

/-- The first saved error wins (`decodeState.saveError`). -/
def firstErr : Option GoError → Option GoError → Option GoError
  | some e, _ => some e
  | none, e => e

/-- The name `encoding/json` gives the kind of a JSON value in an
`UnmarshalTypeError`. -/
def Json.kind : Json → String
  | .null => "null"
  | .bool _ => "bool"
  | .num lit => "number " ++ String.mk lit
  | .str _ => "string"
  | .arr _ => "array"
  | .obj _ => "object"

/-- Decode into a Go `string`. -/
def decodeString (old : String) : Json → String × Option GoError
  | .str s => (s, none)
  | .null => (old, none)
  | .num _ => (old, some (.jsonType "number" "string"))
  | j => (old, some (.jsonType j.kind "string"))

/-- Decode into a Go `int`. -/
def decodeInt (old : Int) : Json → Int × Option GoError
  | .num lit =>
    match parseInt lit with
    | some i => (i, none)
    | none => (old, some (.jsonType ("number " ++ String.mk lit) "int"))
  | .null => (old, none)
  | j => (old, some (.jsonType j.kind "int"))

/-- Decode into a Go `*int`: `null` stores `nil`; anything else first makes the
pointer non-nil (pointing to 0 when it was `nil`) and then decodes into the
`int` it points to. -/
def decodePtrInt (old : Option Int) : Json → Option Int × Option GoError
  | .null => (none, none)
  | j =>
    let r := decodeInt (old.getD 0) j
    (some r.1, r.2)

/-- Decode the elements of a JSON array into the elements of a slice: the
element at an index already in the slice is decoded into, a new one starts
from the zero value. -/
def decodeElems {α : Type} (dec : α → Json → α × Option GoError) (zero : α) :
    List α → List Json → List α × Option GoError
  | _, [] => ([], none)
  | old, j :: js =>
    let r := dec (old.headD zero) j
    let rs := decodeElems dec zero old.tail js
    (r.1 :: rs.1, firstErr r.2 rs.2)

/-- Decode into a Go slice: `null` stores `nil`, an array stores its decoded
elements (an empty array the empty, non-nil slice). -/
def decodeSlice {α : Type} (dec : α → Json → α × Option GoError) (zero : α)
    (goType : String) (old : Option (List α)) : Json → Option (List α) × Option GoError
  | .null => (none, none)
  | .arr xs =>
    let r := decodeElems dec zero (old.getD []) xs
    (some r.1, r.2)
  | .num _ => (old, some (.jsonType "number" goType))
  | j => (old, some (.jsonType j.kind goType))

/-- The members of a JSON object, decoded in order by `step`. -/
def decodeMembers {α : Type} (step : α → String → Json → α × Option GoError) :
    α → List (String × Json) → α × Option GoError
  | t, [] => (t, none)
  | t, (k, v) :: r =>
    let r1 := step t k v
    let r2 := decodeMembers step r1.1 r
    (r2.1, firstErr r1.2 r2.2)

/-- Decode into a Go struct whose fields `step` decodes. -/
def decodeStruct {α : Type} (step : α → String → Json → α × Option GoError)
    (goType : String) (old : α) : Json → α × Option GoError
  | .obj kvs => decodeMembers step old kvs
  | .null => (old, none)
  | .num _ => (old, some (.jsonType "number" goType))
  | j => (old, some (.jsonType j.kind goType))

/-- Case folding of a character of an object key, for the comparison with a
field name in lower-case ASCII: the upper-case letters, the Kelvin sign and
the long s fold to their lower-case ASCII letter. -/
def foldChar (c : Char) : Char :=
  if 'A' ≤ c ∧ c ≤ 'Z' then Char.ofNat (c.toNat + 32)
  else if c.toNat = 8490 then 'k'
  else if c.toNat = 383 then 's'
  else c

/-- The field name that an object key selects: `encoding/json` takes the field
with exactly that name and otherwise the one equal to it under case folding. -/
def fieldKey (k : String) : String := String.mk (k.data.map foldChar)

/-- Decode one member of an object into the field of `Entry` it names; a
member that names no field is skipped. -/
def decodeEntryField (e : Entry) (k : String) (v : Json) : Entry × Option GoError :=
  let f := fieldKey k
  if f = "id" then
    let r := decodeInt e.ID v
    ({ e with ID := r.1 }, r.2)
  else if f = "host" then
    let r := decodeString e.Host v
    ({ e with Host := r.1 }, r.2)
  else if f = "type" then
    let r := decodeString e.Type_ v
    ({ e with Type_ := r.1 }, r.2)
  else if f = "ttl" then
    let r := decodePtrInt e.TTL v
    ({ e with TTL := r.1 }, r.2)
  else if f = "value" then
    let r := decodeString e.Value v
    ({ e with Value := r.1 }, r.2)
  else if f = "prio" then
    let r := decodePtrInt e.Priority v
    ({ e with Priority := r.1 }, r.2)
  else (e, none)

/-- Decode into an `Entry`. -/
def decodeEntry (old : Entry) (j : Json) : Entry × Option GoError :=
  decodeStruct decodeEntryField "client.Entry" old j

/-- Decode one member of an object into the field of `Domain` it names. -/
def decodeDomainField (d : Domain) (k : String) (v : Json) : Domain × Option GoError :=
  let f := fieldKey k
  if f = "name" then
    let r := decodeString d.Name v
    ({ d with Name := r.1 }, r.2)
  else if f = "created" then
    let r := decodeString d.Created v
    ({ d with Created := r.1 }, r.2)
  else if f = "updated" then
    let r := decodeString d.Updated v
    ({ d with Updated := r.1 }, r.2)
  else if f = "entry_set" then
    let r := decodeSlice decodeEntry Entry.zero "[]client.Entry" d.EntrySet v
    ({ d with EntrySet := r.1 }, r.2)
  else if f = "tags" then
    let r := decodeSlice decodeString "" "[]string" d.Tags v
    ({ d with Tags := r.1 }, r.2)
  else (d, none)

/-- Decode into a `Domain`. -/
def decodeDomain (old : Domain) (j : Json) : Domain × Option GoError :=
  decodeStruct decodeDomainField "client.Domain" old j

/-- Decode one member of an object into the field of `DomainRequest` it
names. -/
def decodeDomainRequestField (r : DomainRequest) (k : String) (v : Json) :
    DomainRequest × Option GoError :=
  let f := fieldKey k
  if f = "name" then
    let x := decodeString r.Name v
    ({ r with Name := x.1 }, x.2)
  else if f = "ip" then
    let x := decodeString r.IP v
    ({ r with IP := x.1 }, x.2)
  else (r, none)

/-- Decode into a `DomainRequest` (the test server of `TestCreateDomain`). -/
def decodeDomainRequest (old : DomainRequest) (j : Json) : DomainRequest × Option GoError :=
  decodeStruct decodeDomainRequestField "client.DomainRequest" old j

/-- Decode into a `[]Domain`. -/
def decodeDomains (old : Option (List Domain)) (j : Json) :
    Option (List Domain) × Option GoError :=
  decodeSlice decodeDomain Domain.zero "[]client.Domain" old j

/-- Decode into a `[]Entry`. -/
def decodeEntries (old : Option (List Entry)) (j : Json) :
    Option (List Entry) × Option GoError :=
  decodeSlice decodeEntry Entry.zero "[]client.Entry" old j

/-- `json.Unmarshal(data, &v)`: a syntax error leaves `v` untouched; otherwise
the value is decoded into `v`. -/
def Unmarshal {α : Type} (dec : α → Json → α × Option GoError) (data : String) (v : α) :
    α × Option GoError :=
  match parseJson data with
  | none => (v, some .jsonSyntax)
  | some j => dec v j

/-! ## The client -/

/-- The Go constant `DefaultBaseURL`. -/
def DefaultBaseURL : String := "https://fornex.com/api"

/-- `strings.TrimSuffix`. -/
def TrimSuffix (s suffix : String) : String :=
  if suffix.data.isSuffixOf s.data then
    String.mk (s.data.take (s.data.length - suffix.data.length))
  else s

/-- `time.Minute`, in nanoseconds. -/
def timeMinute : Nat := 60000000000

/-- `NewClient`. -/
def NewClient (apiKey : String) (baseURL : String) : Client :=
  let baseURL := if baseURL = "" then DefaultBaseURL else baseURL
  let baseURL := TrimSuffix baseURL "/"
  { BaseURL := baseURL, APIKey := apiKey, HTTPClient := { Timeout := timeMinute } }

/-- `http.NewRequest(method, url, body)`: the request with an empty header
map, or the error of the library. -/
def NewRequest (env : Env) (method url : String) (body : Option String) :
    Except GoError Request :=
  match env.newRequestErr method url with
  | some e => .error (.newRequest e)
  | none => .ok { Method := method, URL := url, Header := Header.empty, Body := body }

/-- `Client.ListDomains`. -/
def ListDomains (env : Env) (c : Client) (sent : List Request) : Ret (List Domain) :=
  match NewRequest env "GET" (c.BaseURL ++ "/dns/domain/") none with
  | .error err => ⟨none, some err, sent⟩
  | .ok req =>
    let r := doRequest env c req sent
    match r.err with
    | some err => ⟨none, some err, r.sent⟩
    | none =>
      let u := Unmarshal decodeDomains (r.val.getD "") none
      ⟨u.1, u.2, r.sent⟩

/-- `Client.CreateDomain`. The `json.Marshal` of a `DomainRequest` has no error,
so the first `return nil, err` is never taken. -/
def CreateDomain (env : Env) (c : Client) (name ip : String) (sent : List Request) :
    Ret Domain :=
  let dr : DomainRequest := { Name := name, IP := ip }
  let data := Marshal (marshalDomainRequest dr)
  match NewRequest env "POST" (c.BaseURL ++ "/dns/domain/") (some data) with
  | .error err => ⟨none, some err, sent⟩
  | .ok req =>
    let r := doRequest env c req sent
    match r.err with
    | some err => ⟨none, some err, r.sent⟩
    | none =>
      let u := Unmarshal decodeDomain (r.val.getD "") Domain.zero
      ⟨some u.1, u.2, r.sent⟩

/-- `Client.DeleteDomain`. -/
def DeleteDomain (env : Env) (c : Client) (name : String) (sent : List Request) : RetErr :=
  match NewRequest env "DELETE" (c.BaseURL ++ "/dns/domain/" ++ name ++ "/") none with
  | .error err => ⟨some err, sent⟩
  | .ok req =>
    let r := doRequest env c req sent
    ⟨r.err, r.sent⟩

/-- The loop of `GetDomain`: the first domain with the given name. -/
def scanDomains (name : String) : List Domain → Option Domain
  | [] => none
  | d :: ds => if d.Name = name then some d else scanDomains name ds

/-- `Client.GetDomain`. -/
def GetDomain (env : Env) (c : Client) (name : String) (sent : List Request) : Ret Domain :=
  let r := ListDomains env c sent
  match r.err with
  | some err => ⟨none, some err, r.sent⟩
  | none =>
    match scanDomains name (r.val.getD []) with
    | some d => ⟨some d, none, r.sent⟩
    | none => ⟨none, some (.errorf ("domain " ++ name ++ " not found")), r.sent⟩

/-- `Client.ListEntries`. -/
def ListEntries (env : Env) (c : Client) (domainName : String) (sent : List Request) :
    Ret (List Entry) :=
  match NewRequest env "GET" (c.BaseURL ++ "/dns/domain/" ++ domainName ++ "/entry_set/")
      none with
  | .error err => ⟨none, some err, sent⟩
  | .ok req =>
    let r := doRequest env c req sent
    match r.err with
    | some err => ⟨none, some err, r.sent⟩
    | none =>
      let u := Unmarshal decodeEntries (r.val.getD "") none
      ⟨u.1, u.2, r.sent⟩

/-- `Client.CreateEntry`. The `json.Marshal` of an `Entry` has no error, so the
first `return nil, err` is never taken. -/
def CreateEntry (env : Env) (c : Client) (domainName : String) (entry : Entry)
    (sent : List Request) : Ret Entry :=
  let data := Marshal (marshalEntry entry)
  match NewRequest env "POST" (c.BaseURL ++ "/dns/domain/" ++ domainName ++ "/entry_set/")
      (some data) with
  | .error err => ⟨none, some err, sent⟩
  | .ok req =>
    let r := doRequest env c req sent
    match r.err with
    | some err => ⟨none, some err, r.sent⟩
    | none =>
      let u := Unmarshal decodeEntry (r.val.getD "") Entry.zero
      ⟨some u.1, u.2, r.sent⟩

/-- `Client.UpdateEntry`. The `json.Marshal` of an `Entry` has no error, so the
first `return nil, err` is never taken. -/
def UpdateEntry (env : Env) (c : Client) (domainName : String) (entryID : Int)
    (entry : Entry) (sent : List Request) : Ret Entry :=
  let data := Marshal (marshalEntry entry)
  match NewRequest env "PUT"
      (c.BaseURL ++ "/dns/domain/" ++ domainName ++ "/entry_set/" ++ sprintInt entryID ++ "/")
      (some data) with
  | .error err => ⟨none, some err, sent⟩
  | .ok req =>
    let r := doRequest env c req sent
    match r.err with
    | some err => ⟨none, some err, r.sent⟩
    | none =>
      let u := Unmarshal decodeEntry (r.val.getD "") Entry.zero
      ⟨some u.1, u.2, r.sent⟩

/-- `Client.DeleteEntry`. -/
def DeleteEntry (env : Env) (c : Client) (domainName : String) (entryID : Int)
    (sent : List Request) : RetErr :=
  match NewRequest env "DELETE"
      (c.BaseURL ++ "/dns/domain/" ++ domainName ++ "/entry_set/" ++ sprintInt entryID ++ "/")
      none with
  | .error err => ⟨some err, sent⟩
  | .ok req =>
    let r := doRequest env c req sent
    ⟨r.err, r.sent⟩

/-- The loop of `GetEntry`: the first entry with the given id. -/
def scanEntries (entryID : Int) : List Entry → Option Entry
  | [] => none
  | e :: es => if e.ID = entryID then some e else scanEntries entryID es

/-- `Client.GetEntry`. -/
def GetEntry (env : Env) (c : Client) (domainName : String) (entryID : Int)
    (sent : List Request) : Ret Entry :=
  let r := ListEntries env c domainName sent
  match r.err with
  | some err => ⟨none, some err, r.sent⟩
  | none =>
    match scanEntries entryID (r.val.getD []) with
    | some e => ⟨some e, none, r.sent⟩
    | none =>
      ⟨none, some (.errorf ("entry " ++ sprintInt entryID ++ " not found in domain " ++
        domainName)), r.sent⟩

/-! ## Predicates used to state the properties -/

/-- The input after a number literal does not continue the literal: it is
empty or starts with a character that is neither a digit, a point nor an
exponent mark. -/
def numEnd (rest : List Char) : Prop :=
  match rest with
  | [] => True
  | c :: _ => isDigit c = false ∧ c ≠ '.' ∧ c ≠ 'e' ∧ c ≠ 'E'

/-- A character that is not JSON white space. -/
def notWs (c : Char) : Prop :=
  c ≠ ' ' ∧ c ≠ '\t' ∧ c ≠ '\r' ∧ c ≠ '\n'

instance (c : Char) : Decidable (notWs c) := by
  unfold notWs
  infer_instance

/-- `Fits n j`: the JSON value `j` has integer literals in decimal form for
its numbers, and nests no deeper than `parseValue n` accepts. -/
inductive Fits : Nat → Json → Prop where
  | null (n : Nat) : Fits (n + 1) .null
  | bool (n : Nat) (b : Bool) : Fits (n + 1) (.bool b)
  | num (n : Nat) (i : Int) : Fits (n + 1) (.num (fmtInt i))
  | str (n : Nat) (s : String) : Fits (n + 1) (.str s)
  | arr (n : Nat) (xs : List Json) (h : ∀ x ∈ xs, Fits (n + 1) x) : Fits (n + 2) (.arr xs)
  | obj (n : Nat) (kvs : List (String × Json)) (h : ∀ kv ∈ kvs, Fits (n + 1) kv.2) :
      Fits (n + 2) (.obj kvs)

/-- The call that took the log of requests from `before` to `after` made one
request, and the network answered it with status `s` and a body `b` that was
read in full. -/
def answered (env : Env) (before after : List Request) (s : Int) (b : String) : Prop :=
  ∃ r, after = before ++ [r] ∧ env.roundTrip before r = .ok ⟨s, .ok b⟩

/-- The keys of a JSON object, in order; none for other values. -/
def Json.keys : Json → List String
  | .obj kvs => kvs.map Prod.fst
  | _ => []

/-- The value under a key of a JSON object. -/
def Json.member (k : String) : Json → Option Json
  | .obj kvs => kvs.lookup k
  | _ => none

/-- The keys of the JSON object that a body holds. -/
def bodyKeys (body : String) : List String :=
  match parseJson body with
  | some j => j.keys
  | none => []

/-- A `null` member of the JSON object that a body holds. -/
def bodyHasNull (body : String) (k : String) : Bool :=
  match parseJson body with
  | some j =>
    match j.member k with
    | some .null => true
    | _ => false
  | none => false

/-- An error of `json.Unmarshal`. -/
def GoError.isJson : GoError → Prop
  | .jsonSyntax => True
  | .jsonType _ _ => True
  | _ => False

/-- An error of `doRequest`: one of the transport, or one whose text starts
with `status: `. -/
def GoError.fromTransport : GoError → Prop
  | .transport _ => True
  | .bodyRead _ => True
  | .errorf t => ∃ r, t = "status: " ++ r
  | _ => False

/-! ## Examples of environments -/

/-- A network that answers every request with the status `s` and the body
`b`; every request can be built. -/
def serverReplying (s : Int) (b : String) : Env :=
  { newRequestErr := fun _ _ => none
    roundTrip := fun _ _ => .ok ⟨s, .ok b⟩ }

/-- A network that answers every request with status 201 and the body of the
request. -/
def echoServer : Env :=
  { newRequestErr := fun _ _ => none
    roundTrip := fun _ r => .ok ⟨201, .ok (r.Body.getD "")⟩ }

/-- The client of the unit tests. -/
def testClient : Client := NewClient "test-key" "http://127.0.0.1:8080"

/-- A network that answers every request with a list of two domains. -/
def twoDomains : Env :=
  serverReplying 200 "[\x7b\"name\":\"a.com\"\x7d,\x7b\"name\":\"b.com\",\"tags\":[\"x\"]\x7d]"

/-- A network that answers every request with a list of two entries, the
second without an id. -/
def twoEntries : Env :=
  serverReplying 200
    "[\x7b\"id\":7,\"host\":\"www\",\"type\":\"A\",\"ttl\":null,\"value\":\"1.2.3.4\"\x7d,\x7b\"host\":\"mail\",\"type\":\"MX\",\"ttl\":300,\"value\":\"mx.a.com\",\"prio\":10\x7d]"

/-! ## Further predicates and library functions -/

/-- What the log of an operation shows when the operation builds its request
with the method `m` and the URL `u`: every request the operation sends has
that method and that URL, the request is sent whenever `http.NewRequest`
accepts `m` and `u`, and nothing is sent when it rejects them. -/
def buildsRequest (env : Env) (sent after : List Request) (m u : String) : Prop :=
  (∀ r, after = sent ++ [r] → r.Method = m ∧ r.URL = u) ∧
  (env.newRequestErr m u = none → ∃ r, after = sent ++ [r]) ∧
  (env.newRequestErr m u ≠ none → after = sent)

/-- `strings.HasSuffix`. -/
def HasSuffix (s suffix : String) : Bool := suffix.data.isSuffixOf s.data

/-! ## The provider layer (`internal/provider`)

The plugin framework is the environment: what `req.Plan.Get` and
`req.State.Get` deliver is part of the request, and the diagnostics that
`resp.State.Set` and `resp.State.SetAttribute` return are the parameter
`Framework`. A response starts with no diagnostics; it records the value
handed to `resp.State.Set`, the client operations called and whether the call
ended in a nil dereference. -/

/-- A `types.String` of the plugin framework. -/
inductive TfString where
  | null
  | unknown
  | value (s : String)
  deriving DecidableEq

/-- `types.String.IsNull`. -/
def TfString.IsNull : TfString → Bool
  | .null => true
  | _ => false

/-- `types.String.ValueString`: the empty string for null and unknown. -/
def TfString.ValueString : TfString → String
  | .value s => s
  | _ => ""

/-- The severity of a diagnostic. -/
inductive Severity where
  | error
  | warning
  deriving DecidableEq

/-- The value that a diagnostic formats into its detail: none, an error (verb
`%s`) or a quoted string (verb `%q`). -/
inductive DiagArg where
  | none
  | err (e : GoError)
  | quoted (s : String)
  deriving DecidableEq

/-- A diagnostic: `Detail` is the text, or the format string when `Arg` holds
the value formatted into it. -/
structure Diagnostic where
  Severity : Severity
  Summary : String
  Detail : String
  Arg : DiagArg
  deriving DecidableEq

/-- The diagnostic that `Diagnostics.AddError(summary, detail)` adds. -/
def errorDiag (summary detail : String) (arg : DiagArg) : Diagnostic :=
  { Severity := .error, Summary := summary, Detail := detail, Arg := arg }

/-- `Diagnostics.HasError`. -/
def HasError (ds : List Diagnostic) : Bool :=
  ds.any (fun d => decide (d.Severity = .error))

/-- `Diagnostics.Append`: each new diagnostic is added at the end unless the
list already contains it. -/
def appendDiags (ds new : List Diagnostic) : List Diagnostic :=
  new.foldl (fun acc d => if d ∈ acc then acc else acc ++ [d]) ds

/-- The Go `DomainResourceModel` struct. -/
structure DomainResourceModel where
  Name : TfString
  IP : TfString
  deriving DecidableEq

/-- The diagnostics that the framework returns from the state setters:
`resp.State.Set(ctx, &data)` for a `DomainResourceModel`, and
`resp.State.SetAttribute(ctx, path.Root(name), value)` for a string or an
`int64` value. -/
structure Framework where
  stateSet : DomainResourceModel → List Diagnostic
  setAttribute : String → String ⊕ Int → List Diagnostic

/-- The Go `DomainResource` struct: `client` is `none` before `Configure`. -/
structure DomainResource where
  client : Option Client

/-- A create request: what `req.Plan.Get(ctx, &data)` returns and stores. -/
structure DomainCreateRequest where
  PlanDiags : List Diagnostic
  Plan : DomainResourceModel

/-- A read request: what `req.State.Get(ctx, &data)` returns and stores. -/
structure DomainReadRequest where
  StateDiags : List Diagnostic
  State : DomainResourceModel

/-- A call of a client operation by the provider layer. -/
inductive ClientCall where
  | CreateDomain (name ip : String)
  | GetDomain (name : String)
  deriving DecidableEq

/-- What a resource method leaves behind: the diagnostics of the response, the
value handed to `resp.State.Set` (`none` when it was not called), the client
operations called, the log of requests, and whether the method ended in a nil
dereference. -/
structure ResourceResponse where
  Diagnostics : List Diagnostic
  State : Option DomainResourceModel
  calls : List ClientCall
  sent : List Request
  panicked : Bool

/-- `DomainResource.Create`. -/
def DomainResource.Create (fw : Framework) (env : Env) (r : DomainResource)
    (req : DomainCreateRequest) (sent : List Request) : ResourceResponse :=
  let diags := appendDiags [] req.PlanDiags
  let data := req.Plan
  if HasError diags then
    ⟨diags, none, [], sent, false⟩
  else if data.IP.IsNull then
    ⟨appendDiags diags
        [errorDiag "Missing IP" "The ip attribute is required when creating a domain." .none],
      none, [], sent, false⟩
  else
    let call := ClientCall.CreateDomain data.Name.ValueString data.IP.ValueString
    match r.client with
    | none => ⟨diags, none, [call], sent, true⟩
    | some c =>
      let ret := CreateDomain env c data.Name.ValueString data.IP.ValueString sent
      match ret.err with
      | some err =>
        ⟨appendDiags diags
            [errorDiag "Client Error" "Unable to create domain, got error: %s" (.err err)],
          none, [call], ret.sent, false⟩
      | none =>
        match ret.val with
        | none => ⟨diags, none, [call], ret.sent, true⟩
        | some domain =>
          let written : DomainResourceModel := { Name := .value domain.Name, IP := .null }
          ⟨appendDiags diags (fw.stateSet written), some written, [call], ret.sent, false⟩

/-- `DomainResource.Read`. -/
def DomainResource.Read (fw : Framework) (env : Env) (r : DomainResource)
    (req : DomainReadRequest) (sent : List Request) : ResourceResponse :=
  let diags := appendDiags [] req.StateDiags
  let data := req.State
  if HasError diags then
    ⟨diags, none, [], sent, false⟩
  else
    let call := ClientCall.GetDomain data.Name.ValueString
    match r.client with
    | none => ⟨diags, none, [call], sent, true⟩
    | some c =>
      let ret := GetDomain env c data.Name.ValueString sent
      match ret.err with
      | some err =>
        ⟨appendDiags diags
            [errorDiag "Client Error" "Unable to read domain, got error: %s" (.err err)],
          none, [call], ret.sent, false⟩
      | none =>
        match ret.val with
        | none => ⟨diags, none, [call], ret.sent, true⟩
        | some domain =>
          let written : DomainResourceModel := { Name := .value domain.Name, IP := .null }
          ⟨appendDiags diags (fw.stateSet written), some written, [call], ret.sent, false⟩

/-- `strings.Split(s, sep)` on characters, for a separator of one character:
the pieces of `s` between the occurrences of `sep`, at least one piece. -/
def splitChars (sep : Char) : List Char → List (List Char)
  | [] => [[]]
  | c :: cs =>
    if c = sep then [] :: splitChars sep cs
    else
      match splitChars sep cs with
      | [] => [[c]]
      | p :: ps => (c :: p) :: ps

/-- `strings.Split(s, sep)` for a separator of one character. -/
def Split (s : String) (sep : Char) : List String :=
  (splitChars sep s.data).map String.mk

/-- The Go `resource.ImportStateRequest`: the import identifier. -/
structure ImportStateRequest where
  ID : String

/-- What `ImportState` leaves behind: the diagnostics of the response and the
`resp.State.SetAttribute` calls, each with the root attribute and the value
(a string or an `int64`). -/
structure ImportStateResponse where
  Diagnostics : List Diagnostic
  setCalls : List (String × (String ⊕ Int))

/-- The error that `RecordResource.ImportState` adds for an identifier it does
not accept. -/
def unexpectedImportIdentifier (id : String) : Diagnostic :=
  errorDiag "Unexpected Import Identifier"
    "Expected import identifier with format: domain_name:record_id. Got: %q" (.quoted id)

/-- `RecordResource.ImportState`. -/
def RecordResource.ImportState (fw : Framework) (req : ImportStateRequest) :
    ImportStateResponse :=
  let idParts := Split req.ID ':'
  if idParts.length ≠ 2 ∨ idParts.getD 0 "" = "" ∨ idParts.getD 1 "" = "" then
    ⟨appendDiags [] [unexpectedImportIdentifier req.ID], []⟩
  else
    let domainName := idParts.getD 0 ""
    match parseInt (idParts.getD 1 "").data with
    | none => ⟨appendDiags [] [unexpectedImportIdentifier req.ID], []⟩
    | some recordID =>
      ⟨appendDiags (appendDiags [] (fw.setAttribute "domain_name" (.inl domainName)))
          (fw.setAttribute "id" (.inr recordID)),
        [("domain_name", .inl domainName), ("id", .inr recordID)]⟩

/-- A framework whose state setters return no diagnostics. -/
def quietFramework : Framework :=
  { stateSet := fun _ => []
    setAttribute := fun _ _ => [] }

/-! # Properties -/

/-! ## The text of a string literal is read back -/

theorem hexVal_hexDigit (d : Nat) (h : d < 16) : hexVal (hexDigit d) = some d := by
  interval_cases d <;> decide

theorem char_eq_of_toNat (c : Char) (n : Nat) (h : c.toNat = n) : c = Char.ofNat n := by
  rw [← h, Char.ofNat_toNat]

theorem readChar_u00 (a b : Nat) (ha : a < 16) (hb : b < 16) (tail : List Char) :
    readChar (backslash :: 'u' :: '0' :: '0' :: hexDigit a :: hexDigit b :: tail)
      = some (Char.ofNat (a * 16 + b), tail) := by
  have h0 : hexVal '0' = some 0 := by decide
  have hq1 : ¬ ('u' = quote) := by decide
  have hq2 : ¬ ('u' = backslash) := by decide
  have hs : ¬ (55296 ≤ a * 16 + b) := by omega
  simp [readChar, getu4, hexVal_hexDigit a ha, hexVal_hexDigit b hb, h0, hq1, hq2, hs]

theorem readChar_escapeChar (c : Char) (tail : List Char) :
    readChar (escapeChar c ++ tail) = some (c, tail) := by
  unfold escapeChar
  split_ifs with h1 h2 h3 h4 h5 h6 h7 h8 h9
  · rcases h1 with h | h <;> subst h <;> simp [readChar, quote, backslash]
  · have := char_eq_of_toNat c 8 h2
    subst this
    simp [readChar, quote, backslash] 
  · have := char_eq_of_toNat c 12 h3
    subst this
    simp [readChar, quote, backslash] 
  · have := char_eq_of_toNat c 10 h4
    subst this
    simp [readChar, quote, backslash] 
  · have := char_eq_of_toNat c 13 h5
    subst this
    simp [readChar, quote, backslash] 
  · have := char_eq_of_toNat c 9 h6
    subst this
    simp [readChar, quote, backslash] 
  · have hlt : c.toNat < 128 := by
      rcases h7 with h | h | h | h
      · omega
      · subst h; decide
      · subst h; decide
      · subst h; decide
    have ha : c.toNat / 16 < 16 := by omega
    have hb : c.toNat % 16 < 16 := by omega
    have := readChar_u00 _ _ ha hb tail
    rw [Nat.div_add_mod' , Char.ofNat_toNat] at this
    simpa using this
  · have := char_eq_of_toNat c 8232 h8
    subst this
    simp [readChar, quote, backslash, getu4, hexVal]
  · have := char_eq_of_toNat c 8233 h9
    subst this
    simp [readChar, quote, backslash, getu4, hexVal]
  · push_neg at h1 h7
    simp [readChar, h1.2, h7.1]

theorem escapeChar_head (c : Char) : ∃ x t, escapeChar c = x :: t ∧ x ≠ quote := by
  unfold escapeChar
  split_ifs with h1 <;> first
    | exact ⟨_, _, rfl, by decide⟩
    | (push_neg at h1; exact ⟨_, _, rfl, h1.1⟩)

theorem parseString_escapeChars (s : List Char) (rest : List Char) (fuel : Nat)
    (h : s.length < fuel) :
    parseString fuel (escapeChars s ++ quote :: rest) = some (s, rest) := by
  induction s generalizing fuel with
  | nil =>
    cases fuel with
    | zero => omega
    | succ f => simp [escapeChars, parseString]
  | cons c s ih =>
    cases fuel with
    | zero => omega
    | succ f =>
      obtain ⟨x, t, hx, hq⟩ := escapeChar_head c
      have hr := readChar_escapeChar c (escapeChars s ++ quote :: rest)
      have ih' := ih f (by simp at h; omega)
      simp only [escapeChars, List.append_assoc]
      rw [hx] at hr ⊢
      simp only [List.cons_append] at hr ⊢
      simp [parseString, hq, hr, ih']

theorem length_escapeChars (s : List Char) : s.length ≤ (escapeChars s).length := by
  induction s with
  | nil => simp [escapeChars]
  | cons c s ih =>
    obtain ⟨x, t, hx, _⟩ := escapeChar_head c
    simp [escapeChars, hx]
    omega

theorem parseString_renderString (s : String) (rest : List Char) :
    ∃ t, renderString s ++ rest = quote :: t ∧
      parseString (t.length + 1) t = some (s.data, rest) := by
  refine ⟨escapeChars s.data ++ quote :: rest, by simp [renderString], ?_⟩
  apply parseString_escapeChars
  have := length_escapeChars s.data
  simp only [List.length_append, List.length_cons]
  omega



theorem isDigit_digitChar (d : Nat) : isDigit (digitChar d) = true := by
  unfold digitChar
  split <;> decide

theorem digitChar_val (d : Nat) (h : d < 10) : (digitChar d).toNat - 48 = d := by
  interval_cases d <;> decide

theorem digitChar_ne_zero (d : Nat) (h : 0 < d) : digitChar d ≠ '0' := by
  unfold digitChar
  split <;> first | omega | decide

theorem natDigits_all (fuel n : Nat) : ∀ c ∈ natDigits fuel n, isDigit c = true := by
  induction fuel generalizing n with
  | zero => simp [natDigits]
  | succ f ih =>
    unfold natDigits
    split_ifs with h
    · simp [isDigit_digitChar]
    · intro c hc
      rcases List.mem_append.mp hc with hc | hc
      · exact ih _ c hc
      · simp at hc; subst hc; exact isDigit_digitChar _

theorem natDigits_head (fuel n : Nat) (h : n < fuel) :
    ∃ d ds, natDigits fuel n = d :: ds ∧ (n = 0 → d = '0' ∧ ds = []) ∧ (0 < n → d ≠ '0') := by
  induction fuel generalizing n with
  | zero => omega
  | succ f ih =>
    unfold natDigits
    split_ifs with h10
    · refine ⟨digitChar n, [], rfl, ?_, ?_⟩
      · intro h0; subst h0; exact ⟨rfl, rfl⟩
      · intro hpos; exact digitChar_ne_zero n hpos
    · obtain ⟨d, ds, hd, _, hnz⟩ := ih (n / 10) (by omega)
      refine ⟨d, ds ++ [digitChar (n % 10)], by simp [hd], by omega, ?_⟩
      intro _
      exact hnz (by omega)

theorem foldl_digits_append (xs : List Char) (c : Char) (a : Nat) :
    (xs ++ [c]).foldl (fun acc c => 10 * acc + (c.toNat - 48)) a
      = 10 * xs.foldl (fun acc c => 10 * acc + (c.toNat - 48)) a + (c.toNat - 48) := by
  simp [List.foldl_append]

theorem natDigits_value (fuel n : Nat) (h : n < fuel) :
    (natDigits fuel n).foldl (fun acc c => 10 * acc + (c.toNat - 48)) 0 = n := by
  induction fuel generalizing n with
  | zero => omega
  | succ f ih =>
    unfold natDigits
    split_ifs with h10
    · simp [digitChar_val n h10]
    · rw [foldl_digits_append, ih (n / 10) (by omega), digitChar_val _ (by omega)]
      omega

theorem parseNat_fmtNat (n : Nat) : parseNat (fmtNat n) = some n := by
  obtain ⟨d, ds, hd, _, _⟩ := natDigits_head (n + 1) n (by omega)
  have hall := natDigits_all (n + 1) n
  have hval := natDigits_value (n + 1) n (by omega)
  unfold parseNat fmtNat
  have hne : natDigits (n + 1) n ≠ [] := by simp [hd]
  have hall' : (natDigits (n + 1) n).all isDigit = true := by
    simpa [List.all_eq_true] using hall
  simp [hne, hall', hval]

theorem isDigit_ne (c : Char) (h : isDigit c = true) (x : Char) (hx : isDigit x = false) :
    c ≠ x := by
  intro e; subst e; simp [h] at hx

theorem fmtNat_head (n : Nat) :
    ∃ d ds, fmtNat n = d :: ds ∧ isDigit d = true ∧ (∀ c ∈ ds, isDigit c = true) ∧
      (d = '0' → ds = []) := by
  obtain ⟨d, ds, hd, h0, hnz⟩ := natDigits_head (n + 1) n (by omega)
  have hall := natDigits_all (n + 1) n
  rw [hd] at hall
  refine ⟨d, ds, hd, hall d (by simp), fun c hc => hall c (by simp [hc]), ?_⟩
  intro hz
  rcases Nat.eq_zero_or_pos n with h | h
  · exact (h0 h).2
  · exact absurd hz (hnz h)

theorem parseInt_fmtInt (i : Int) (h : inInt64 i) : parseInt (fmtInt i) = some i := by
  cases i with
  | ofNat n =>
    obtain ⟨d, ds, hd, hdig, _, _⟩ := fmtNat_head n
    have hp := parseNat_fmtNat n
    have h1 : d ≠ '-' := isDigit_ne d hdig _ (by decide)
    have h2 : d ≠ '+' := isDigit_ne d hdig _ (by decide)
    have h' : inInt64 (n : Int) := h
    simp only [fmtInt, parseInt]
    rw [hd] at hp ⊢
    simp [h1, h2, hp, h']
  | negSucc n =>
    have hp := parseNat_fmtNat (n + 1)
    simp only [fmtInt, parseInt]
    have hneg : (-(Int.ofNat (n + 1))) = Int.negSucc n := rfl
    simp only [hp, Option.map_some', if_true]
    rw [hneg]
    simp [h]

theorem takeWhile_digits (ds rest : List Char) (h : ∀ c ∈ ds, isDigit c = true)
    (hr : numEnd rest) :
    (ds ++ rest).takeWhile isDigit = ds ∧ (ds ++ rest).dropWhile isDigit = rest := by
  induction ds with
  | nil =>
    cases rest with
    | nil => simp
    | cons c r => simp [numEnd] at hr; simp [List.takeWhile, List.dropWhile, hr.1]
  | cons d ds ih =>
    have hd := h d (by simp)
    have := ih (fun c hc => h c (by simp [hc]))
    simp [List.takeWhile, List.dropWhile, hd, this]

theorem scanUnsigned_fmtNat (n : Nat) (rest : List Char) (hr : numEnd rest) :
    scanUnsigned (fmtNat n ++ rest) = some (fmtNat n, rest) := by
  obtain ⟨d, ds, hd, hdig, hall, hz⟩ := fmtNat_head n
  have htw := takeWhile_digits ds rest hall hr
  have hfrac : scanFrac rest = some ([], rest) := by
    cases rest with
    | nil => rfl
    | cons c r => simp [numEnd] at hr; simp [scanFrac, hr.2.1]
  have hexp : scanExp rest = some ([], rest) := by
    cases rest with
    | nil => rfl
    | cons c r => simp [numEnd] at hr; simp [scanExp, hr.2.2.1, hr.2.2.2]
  rw [hd]
  by_cases h0 : d = '0'
  · have := hz h0
    subst this
    subst h0
    simp [scanUnsigned, scanIntPart, hfrac, hexp]
  · simp [scanUnsigned, scanIntPart, h0, hdig, htw.1, htw.2, hfrac, hexp]

theorem scanNumber_fmtInt (i : Int) (rest : List Char) (hr : numEnd rest) :
    scanNumber (fmtInt i ++ rest) = some (fmtInt i, rest) := by
  cases i with
  | ofNat n =>
    have hs := scanUnsigned_fmtNat n rest hr
    obtain ⟨d, ds, hd, hdig, _, _⟩ := fmtNat_head n
    have h1 : d ≠ '-' := isDigit_ne d hdig _ (by decide)
    simp only [fmtInt]
    rw [hd] at hs ⊢
    simp only [List.cons_append] at hs ⊢
    simp [scanNumber, h1, hs]
  | negSucc n =>
    have hs := scanUnsigned_fmtNat (n + 1) rest hr
    simp [fmtInt, scanNumber, hs]


/-! ## A rendered value is read back -/

theorem skipWs_start (c : Char) (t : List Char) (h : notWs c) : skipWs (c :: t) = c :: t := by
  obtain ⟨h1, h2, h3, h4⟩ := h
  simp [skipWs, h1, h2, h3, h4]

theorem notWs_of_isDigit (c : Char) (h : isDigit c = true) : notWs c ∧ c ≠ ']' := by
  refine ⟨⟨?_, ?_, ?_, ?_⟩, ?_⟩ <;> exact isDigit_ne c h _ (by decide)

theorem fmtInt_head (i : Int) : ∃ c t, fmtInt i = c :: t ∧ (c = '-' ∨ isDigit c = true) := by
  cases i with
  | ofNat n =>
    obtain ⟨d, ds, hd, hdig, _, _⟩ := fmtNat_head n
    exact ⟨d, ds, hd, Or.inr hdig⟩
  | negSucc n => exact ⟨'-', _, rfl, Or.inl rfl⟩

theorem render_head (n : Nat) (j : Json) (h : Fits n j) :
    ∃ c t, render j = c :: t ∧ notWs c ∧ c ≠ ']' := by
  cases h with
  | null n => exact ⟨_, _, rfl, by decide⟩
  | bool n b => cases b <;> exact ⟨_, _, rfl, by decide⟩
  | num n i =>
    obtain ⟨c, t, hc, hd⟩ := fmtInt_head i
    refine ⟨c, t, by simp [render, hc], ?_⟩
    rcases hd with hd | hd
    · subst hd; decide
    · exact notWs_of_isDigit c hd
  | str n s => exact ⟨quote, _, rfl, by decide⟩
  | arr n xs _ => exact ⟨'[', _, rfl, by decide⟩
  | obj n kvs _ => exact ⟨_, _, rfl, by decide⟩

theorem numEnd_comma (r : List Char) : numEnd (',' :: r) := by
  simp [numEnd]; decide

theorem numEnd_bracket (r : List Char) : numEnd (']' :: r) := by
  simp [numEnd]; decide

theorem numEnd_brace (r : List Char) : numEnd (Char.ofNat 125 :: r) := by
  simp [numEnd]; decide

theorem parseElems_renderElems (pv : List Char → Option (Json × List Char))
    (xs : List Json) (x : Json) (rest : List Char) (fuel : Nat)
    (hpv : ∀ y ∈ x :: xs, ∀ r, numEnd r → pv (render y ++ r) = some (y, r))
    (hf : xs.length < fuel) :
    parseElems pv fuel (renderElems (x :: xs) ++ ']' :: rest) = some (x :: xs, rest) := by
  induction xs generalizing x fuel with
  | nil =>
    cases fuel with
    | zero => omega
    | succ f =>
      have h1 := hpv x (by simp) (']' :: rest) (numEnd_bracket rest)
      have h2 : skipWs (']' :: rest) = ']' :: rest := skipWs_start _ _ (by decide)
      simp [renderElems, parseElems, h1, h2]
  | cons y ys ih =>
    cases fuel with
    | zero => omega
    | succ f =>
      have h1 := hpv x (by simp) (',' :: (renderElems (y :: ys) ++ ']' :: rest))
        (numEnd_comma _)
      have h2 : skipWs (',' :: (renderElems (y :: ys) ++ ']' :: rest))
          = ',' :: (renderElems (y :: ys) ++ ']' :: rest) := skipWs_start _ _ (by decide)
      have h3 := ih y f (fun z hz r hr => hpv z (by simp at hz ⊢; tauto) r hr)
        (by simp at hf; omega)
      simp only [renderElems, List.append_assoc, List.cons_append]
      simp [parseElems, h1, h2, h3]

theorem length_renderElems (n : Nat) (xs : List Json) (h : ∀ x ∈ xs, Fits n x) :
    xs.length ≤ (renderElems xs).length := by
  induction xs with
  | nil => simp
  | cons x xs ih =>
    obtain ⟨c, t, hc, _⟩ := render_head n x (h x (by simp))
    have := ih (fun y hy => h y (by simp [hy]))
    cases xs with
    | nil => simp [renderElems, hc]
    | cons y ys =>
      simp only [renderElems, List.length_append, List.length_cons] at this ⊢
      omega


theorem parseMembers_renderMembers (pv : List Char → Option (Json × List Char))
    (kvs : List (String × Json)) (kv : String × Json) (rest : List Char) (fuel : Nat)
    (hpv : ∀ y ∈ kv :: kvs, ∀ r, numEnd r → pv (render y.2 ++ r) = some (y.2, r))
    (hf : kvs.length < fuel) :
    parseMembers pv fuel (renderMembers (kv :: kvs) ++ Char.ofNat 125 :: rest)
      = some (kv :: kvs, rest) := by
  induction kvs generalizing kv fuel with
  | nil =>
    cases fuel with
    | zero => omega
    | succ f =>
      obtain ⟨k, v⟩ := kv
      obtain ⟨t, ht, hps⟩ := parseString_renderString k
        (':' :: (render v ++ Char.ofNat 125 :: rest))
      have h0 : skipWs (quote :: t) = quote :: t := skipWs_start _ _ (by decide)
      have h1 := hpv (k, v) (by simp) (Char.ofNat 125 :: rest) (numEnd_brace rest)
      have h2 : skipWs (':' :: (render v ++ Char.ofNat 125 :: rest))
          = ':' :: (render v ++ Char.ofNat 125 :: rest) := skipWs_start _ _ (by decide)
      have h3 : skipWs (Char.ofNat 125 :: rest) = Char.ofNat 125 :: rest :=
        skipWs_start _ _ (by decide)
      have h4 : ¬ (Char.ofNat 125 = ',') := by decide
      simp only [renderMembers, List.append_assoc, List.cons_append]
      rw [ht]
      simp only [parseMembers, h0, if_true, hps, h2, h1, h3, h4, if_false]
  | cons m ms ih =>
    cases fuel with
    | zero => omega
    | succ f =>
      obtain ⟨k, v⟩ := kv
      obtain ⟨t, ht, hps⟩ := parseString_renderString k
        (':' :: (render v ++ ',' :: (renderMembers (m :: ms) ++ Char.ofNat 125 :: rest)))
      have h0 : skipWs (quote :: t) = quote :: t := skipWs_start _ _ (by decide)
      have h1 := hpv (k, v) (by simp)
        (',' :: (renderMembers (m :: ms) ++ Char.ofNat 125 :: rest)) (numEnd_comma _)
      have h2 : skipWs (':' :: (render v ++ ',' ::
            (renderMembers (m :: ms) ++ Char.ofNat 125 :: rest)))
          = ':' :: (render v ++ ',' :: (renderMembers (m :: ms) ++ Char.ofNat 125 :: rest)) :=
        skipWs_start _ _ (by decide)
      have h3 : skipWs (',' :: (renderMembers (m :: ms) ++ Char.ofNat 125 :: rest))
          = ',' :: (renderMembers (m :: ms) ++ Char.ofNat 125 :: rest) :=
        skipWs_start _ _ (by decide)
      have h5 := ih m f (fun z hz r hr => hpv z (by simp at hz ⊢; tauto) r hr)
        (by simp at hf; omega)
      simp only [renderMembers, List.append_assoc, List.cons_append]
      rw [ht]
      simp only [parseMembers, h0, if_true, hps, h2, h1, h3, h5]

theorem length_renderMembers (kvs : List (String × Json)) :
    kvs.length ≤ (renderMembers kvs).length := by
  induction kvs with
  | nil => simp
  | cons kv kvs ih =>
    obtain ⟨k, v⟩ := kv
    cases kvs with
    | nil => simp [renderMembers, renderString]
    | cons y ys =>
      simp only [renderMembers, renderString, List.length_append, List.length_cons] at ih ⊢
      omega

theorem renderMembers_head (kv : String × Json) (kvs : List (String × Json)) :
    ∃ t, renderMembers (kv :: kvs) = quote :: t := by
  obtain ⟨k, v⟩ := kv
  cases kvs with
  | nil => exact ⟨escapeChars k.data ++ quote :: ':' :: render v,
      by simp [renderMembers, renderString]⟩
  | cons y ys =>
    exact ⟨escapeChars k.data ++ quote :: ':' :: (render v ++ ',' :: renderMembers (y :: ys)),
      by simp [renderMembers, renderString]⟩

theorem renderElems_head (n : Nat) (x : Json) (xs : List Json) (h : Fits n x) :
    ∃ c t, renderElems (x :: xs) = c :: t ∧ notWs c ∧ c ≠ ']' := by
  obtain ⟨c, t, hc, hn⟩ := render_head n x h
  cases xs with
  | nil => exact ⟨c, t, by simp [renderElems, hc], hn⟩
  | cons y ys => exact ⟨c, t ++ ',' :: renderElems (y :: ys), by simp [renderElems, hc], hn⟩

theorem parseValue_render (n : Nat) (j : Json) (h : Fits n j) :
    ∀ rest, numEnd rest → parseValue n (render j ++ rest) = some (j, rest) := by
  induction h with
  | null n => intro rest _; rw [parseValue]; simp [render, skipWs]
  | bool n b => intro rest _; rw [parseValue]; cases b <;> simp [render, skipWs]
  | num n i =>
    intro rest hr
    obtain ⟨c, t, hc, hd⟩ := fmtInt_head i
    have hs := scanNumber_fmtInt i rest hr
    have hw : notWs c ∧ c ≠ ']' := by
      rcases hd with hd | hd
      · subst hd; decide
      · exact notWs_of_isDigit c hd
    have hne : c ≠ 'n' ∧ c ≠ 't' ∧ c ≠ 'f' ∧ c ≠ quote ∧ c ≠ '[' ∧ c ≠ Char.ofNat 123 := by
      rcases hd with hd | hd
      · subst hd; decide
      · refine ⟨?_, ?_, ?_, ?_, ?_, ?_⟩ <;> exact isDigit_ne c hd _ (by decide)
    obtain ⟨h1, h2, h3, h4, h5, h6⟩ := hne
    simp only [render]
    rw [hc] at hs ⊢
    simp only [List.cons_append] at hs ⊢
    rw [parseValue]
    simp only [skipWs_start _ _ hw.1, h1, h2, h3, h4, h5, h6, if_false, hd, if_true,
      hs]
  | str n s =>
    intro rest _
    obtain ⟨t, ht, hps⟩ := parseString_renderString s rest
    have h0 : skipWs (quote :: t) = quote :: t := skipWs_start _ _ (by decide)
    have h1 : ¬ (quote = 'n') := by decide
    have h2 : ¬ (quote = 't') := by decide
    have h3 : ¬ (quote = 'f') := by decide
    simp only [render]
    rw [ht, parseValue]
    simp only [h0, h1, h2, h3, if_false, if_true, hps]
  | arr n xs hfit ih =>
    intro rest _
    have hb : skipWs ('[' :: (renderElems xs ++ ']' :: rest))
        = '[' :: (renderElems xs ++ ']' :: rest) := skipWs_start _ _ (by decide)
    have h1 : ¬ ('[' = 'n') := by decide
    have h2 : ¬ ('[' = 't') := by decide
    have h3 : ¬ ('[' = 'f') := by decide
    have h4 : ¬ ('[' = quote) := by decide
    have hn : ¬ (n + 1 = 0) := by omega
    simp only [render, List.cons_append, List.append_assoc, List.singleton_append,
      List.nil_append]
    rw [parseValue]
    cases xs with
    | nil =>
      have h5 : skipWs (']' :: rest) = ']' :: rest := skipWs_start _ _ (by decide)
      have hb : skipWs ('[' :: ']' :: rest) = '[' :: ']' :: rest := skipWs_start _ _ (by decide)
      simp only [hb, h1, h2, h3, h4, if_false, if_true, hn, renderElems,
        List.nil_append, h5]
    | cons x xs =>
      obtain ⟨c, t, hc, hw, hnb⟩ := renderElems_head (n + 1) x xs (hfit x (by simp))
      have hlen := length_renderElems (n + 1) (x :: xs) hfit
      have hpe := parseElems_renderElems (parseValue (n + 1)) xs x rest
        ((renderElems (x :: xs) ++ ']' :: rest).length + 1)
        (fun y hy r hr => ih y hy r hr)
        (by simp only [List.length_append, List.length_cons] at hlen ⊢; omega)
      have h5 : skipWs (renderElems (x :: xs) ++ ']' :: rest)
          = c :: (t ++ ']' :: rest) := by
        rw [hc]; exact skipWs_start _ _ hw
      simp only [hb, h1, h2, h3, h4, if_false, if_true, hn, h5, hnb, hpe]
  | obj n kvs hfit ih =>
    intro rest _
    have hb : skipWs (Char.ofNat 123 :: (renderMembers kvs ++ Char.ofNat 125 :: rest))
        = Char.ofNat 123 :: (renderMembers kvs ++ Char.ofNat 125 :: rest) :=
      skipWs_start _ _ (by decide)
    have h1 : ¬ (Char.ofNat 123 = 'n') := by decide
    have h2 : ¬ (Char.ofNat 123 = 't') := by decide
    have h3 : ¬ (Char.ofNat 123 = 'f') := by decide
    have h4 : ¬ (Char.ofNat 123 = quote) := by decide
    have h4' : ¬ (Char.ofNat 123 = '[') := by decide
    have hn : ¬ (n + 1 = 0) := by omega
    simp only [render, List.cons_append, List.append_assoc, List.singleton_append,
      List.nil_append]
    rw [parseValue]
    cases kvs with
    | nil =>
      have h5 : skipWs (Char.ofNat 125 :: rest) = Char.ofNat 125 :: rest :=
        skipWs_start _ _ (by decide)
      have hb : skipWs (Char.ofNat 123 :: Char.ofNat 125 :: rest)
          = Char.ofNat 123 :: Char.ofNat 125 :: rest := skipWs_start _ _ (by decide)
      simp only [hb, h1, h2, h3, h4, h4', if_false, if_true, hn, renderMembers,
        List.nil_append, h5]
    | cons kv kvs =>
      obtain ⟨t, ht⟩ := renderMembers_head kv kvs
      have hlen := length_renderMembers (kv :: kvs)
      have hpe := parseMembers_renderMembers (parseValue (n + 1)) kvs kv rest
        ((renderMembers (kv :: kvs) ++ Char.ofNat 125 :: rest).length + 1)
        (fun y hy r hr => ih y hy r hr)
        (by simp only [List.length_append, List.length_cons] at hlen ⊢; omega)
      have h5 : skipWs (renderMembers (kv :: kvs) ++ Char.ofNat 125 :: rest)
          = quote :: (t ++ Char.ofNat 125 :: rest) := by
        rw [ht]; exact skipWs_start _ _ (by decide)
      have h6 : ¬ (quote = Char.ofNat 125) := by decide
      simp only [hb, h1, h2, h3, h4, h4', if_false, if_true, hn, h5, h6, hpe]

theorem parseJson_Marshal (j : Json) (h : Fits (maxNestingDepth + 1) j) :
    parseJson (Marshal j) = some j := by
  have := parseValue_render _ j h [] trivial
  simp only [List.append_nil] at this
  simp [parseJson, Marshal, this, skipWs]


/-! ## A marshalled value is decoded back -/

theorem Fits_marshalEntry (n : Nat) (e : Entry) : Fits (n + 2) (marshalEntry e) := by
  unfold marshalEntry
  apply Fits.obj
  intro kv hkv
  simp only [List.mem_append, List.mem_cons, List.mem_singleton, List.not_mem_nil,
    or_false] at hkv
  rcases hkv with (hid | h | h | h | h) | hp
  · split_ifs at hid with h0
    · simp at hid
    · simp at hid; subst hid; exact Fits.num _ _
  · subst h; exact Fits.str _ _
  · subst h; exact Fits.str _ _
  · subst h
    cases e.TTL with
    | none => exact Fits.null _
    | some t => exact Fits.num _ _
  · subst h; exact Fits.str _ _
  · cases hP : e.Priority with
    | none => simp [hP] at hp
    | some p => simp [hP] at hp; subst hp; exact Fits.num _ _

theorem Fits_marshalDomainRequest (n : Nat) (r : DomainRequest) :
    Fits (n + 2) (marshalDomainRequest r) := by
  unfold marshalDomainRequest
  apply Fits.obj
  intro kv hkv
  simp only [List.mem_cons, List.mem_singleton, List.not_mem_nil, or_false] at hkv
  rcases hkv with h | h <;> subst h <;> exact Fits.str _ _

theorem Fits_marshalDomain (n : Nat) (d : Domain) : Fits (n + 4) (marshalDomain d) := by
  unfold marshalDomain
  apply Fits.obj
  intro kv hkv
  simp only [List.mem_cons, List.mem_singleton, List.not_mem_nil, or_false] at hkv
  rcases hkv with h | h | h | h | h
  · subst h; exact Fits.str _ _
  · subst h; exact Fits.str _ _
  · subst h; exact Fits.str _ _
  · subst h
    cases d.EntrySet with
    | none => exact Fits.null _
    | some es =>
      apply Fits.arr
      intro x hx
      obtain ⟨e, _, he⟩ := List.mem_map.mp hx
      subst he
      exact Fits_marshalEntry _ e
  · subst h
    cases d.Tags with
    | none => exact Fits.null _
    | some ts =>
      apply Fits.arr
      intro x hx
      obtain ⟨t, _, ht⟩ := List.mem_map.mp hx
      subst ht
      exact Fits.str _ _

theorem fieldKey_id : fieldKey "id" = "id" := by decide
theorem fieldKey_host : fieldKey "host" = "host" := by decide
theorem fieldKey_type : fieldKey "type" = "type" := by decide
theorem fieldKey_ttl : fieldKey "ttl" = "ttl" := by decide
theorem fieldKey_value : fieldKey "value" = "value" := by decide
theorem fieldKey_prio : fieldKey "prio" = "prio" := by decide
theorem fieldKey_name : fieldKey "name" = "name" := by decide
theorem fieldKey_created : fieldKey "created" = "created" := by decide
theorem fieldKey_updated : fieldKey "updated" = "updated" := by decide
theorem fieldKey_entry_set : fieldKey "entry_set" = "entry_set" := by decide
theorem fieldKey_tags : fieldKey "tags" = "tags" := by decide
theorem fieldKey_ip : fieldKey "ip" = "ip" := by decide

theorem decodeInt_marshalInt (old i : Int) (h : inInt64 i) :
    decodeInt old (marshalInt i) = (i, none) := by
  simp [decodeInt, marshalInt, parseInt_fmtInt i h]

theorem decodePtrInt_marshalInt (old : Option Int) (i : Int) (h : inInt64 i) :
    decodePtrInt old (marshalInt i) = (some i, none) := by
  simp [decodePtrInt, marshalInt, decodeInt, parseInt_fmtInt i h]

theorem decodePtrInt_null (old : Option Int) : decodePtrInt old .null = (none, none) := rfl

theorem decodeEntry_marshalEntry (e : Entry) (h : e.wf) :
    decodeEntry Entry.zero (marshalEntry e) = (e, none) := by
  obtain ⟨hid, httl, hprio⟩ := h
  obtain ⟨id, host, ty, ttl, value, prio⟩ := e
  simp only at hid httl hprio
  have hI := decodeInt_marshalInt 0 id hid
  have hT : ∀ t, ttl = some t → decodePtrInt none (marshalInt t) = (some t, none) :=
    fun t ht => decodePtrInt_marshalInt none t (by subst ht; exact httl)
  have hP : ∀ p, prio = some p → decodePtrInt none (marshalInt p) = (some p, none) :=
    fun p hp => decodePtrInt_marshalInt none p (by subst hp; exact hprio)
  by_cases h0 : id = 0 <;> cases ttl <;> cases prio <;>
    simp [decodeEntry, decodeStruct, marshalEntry, decodeMembers, decodeEntryField,
      fieldKey_id, fieldKey_host, fieldKey_type, fieldKey_ttl, fieldKey_value, fieldKey_prio,
      decodeString, firstErr, Entry.zero, h0, hI, hT, hP, decodePtrInt_null]


theorem decodeDomainRequest_marshal (r : DomainRequest) :
    decodeDomainRequest DomainRequest.zero (marshalDomainRequest r) = (r, none) := by
  obtain ⟨name, ip⟩ := r
  simp [decodeDomainRequest, decodeStruct, marshalDomainRequest, decodeMembers,
    decodeDomainRequestField, fieldKey_name, fieldKey_ip, decodeString, firstErr,
    DomainRequest.zero]

theorem decodeElems_entries (es : List Entry) (h : ∀ e ∈ es, e.wf) :
    decodeElems decodeEntry Entry.zero [] (es.map marshalEntry) = (es, none) := by
  induction es with
  | nil => rfl
  | cons e es ih =>
    have h1 := decodeEntry_marshalEntry e (h e (by simp))
    have h2 := ih (fun x hx => h x (by simp [hx]))
    simp [decodeElems, h1, h2, firstErr]

theorem decodeElems_strings (ts : List String) :
    decodeElems decodeString "" [] (ts.map Json.str) = (ts, none) := by
  induction ts with
  | nil => rfl
  | cons t ts ih => simp [decodeElems, decodeString, ih, firstErr]

theorem decodeDomain_marshalDomain (d : Domain) (h : d.wf) :
    decodeDomain Domain.zero (marshalDomain d) = (d, none) := by
  obtain ⟨name, created, updated, es, tags⟩ := d
  have hE : ∀ l, es = some l → decodeElems decodeEntry Entry.zero [] (l.map marshalEntry)
      = (l, none) := fun l hl => decodeElems_entries l (by subst hl; exact h)
  cases es <;> cases tags <;>
    simp [decodeDomain, decodeStruct, marshalDomain, decodeMembers, decodeDomainField,
      fieldKey_name, fieldKey_created, fieldKey_updated, fieldKey_entry_set, fieldKey_tags,
      decodeString, firstErr, Domain.zero, decodeSlice, marshalSlice, hE,
      decodeElems_strings]

theorem decodeDomains_marshal (ds : List Domain) (h : ∀ d ∈ ds, d.wf) :
    decodeElems decodeDomain Domain.zero [] (ds.map marshalDomain) = (ds, none) := by
  induction ds with
  | nil => rfl
  | cons d ds ih =>
    have h1 := decodeDomain_marshalDomain d (h d (by simp))
    have h2 := ih (fun x hx => h x (by simp [hx]))
    simp [decodeElems, h1, h2, firstErr]

theorem Unmarshal_Marshal {α : Type} (dec : α → Json → α × Option GoError) (j : Json)
    (v : α) (h : Fits (maxNestingDepth + 1) j) :
    Unmarshal dec (Marshal j) v = dec v j := by
  simp [Unmarshal, parseJson_Marshal j h]

/-! ## Transport -/

theorem doRequest_sent (env : Env) (c : Client) (req : Request) (sent : List Request) :
    (doRequest env c req sent).sent = sent ++ [setHeaders c req] := by
  unfold doRequest
  simp only
  split
  · rfl
  · split
    · rfl
    · split <;> rfl

theorem answered_doRequest (env : Env) (c : Client) (req : Request) (sent : List Request)
    (s : Int) (b : String) (h : answered env sent (doRequest env c req sent).sent s b) :
    env.roundTrip sent (setHeaders c req) = .ok ⟨s, .ok b⟩ := by
  obtain ⟨r, hr, hrt⟩ := h
  rw [doRequest_sent] at hr
  have : r = setHeaders c req := by
    have := List.append_cancel_left hr
    simpa using this.symm
  rw [← this]
  exact hrt

theorem doRequest_of_roundTrip (env : Env) (c : Client) (req : Request) (sent : List Request)
    (s : Int) (b : String) (h : env.roundTrip sent (setHeaders c req) = .ok ⟨s, .ok b⟩) :
    doRequest env c req sent =
      if s < 200 ∨ s ≥ 300 then
        ⟨none, some (.errorf ("status: " ++ sprintInt s ++ ", body: " ++ b)),
          sent ++ [setHeaders c req]⟩
      else ⟨some b, none, sent ++ [setHeaders c req]⟩ := by
  unfold doRequest
  simp only [h]

/-- C1: when `doRequest` reads a response with status `s` and body `b`, it
returns exactly `b` and no error if `200 ≤ s ≤ 299`, and otherwise no body and
the error with the text `status: <s>, body: <b>`, where `<s>` is the decimal
form of `s` (it reads back as `s`); no other status is treated specially. -/
theorem doRequest_classifies_by_status (env : Env) (c : Client) (req : Request)
    (sent : List Request) (s : Int) (b : String)
    (h : answered env sent (doRequest env c req sent).sent s b) :
    (200 ≤ s ∧ s ≤ 299 →
      (doRequest env c req sent).val = some b ∧ (doRequest env c req sent).err = none) ∧
    (¬ (200 ≤ s ∧ s ≤ 299) →
      (doRequest env c req sent).val = none ∧
      (doRequest env c req sent).err =
        some (.errorf ("status: " ++ sprintInt s ++ ", body: " ++ b))) ∧
    (inInt64 s → parseInt (sprintInt s).data = some s) := by
  rw [doRequest_of_roundTrip env c req sent s b (answered_doRequest env c req sent s b h)]
  refine ⟨?_, ?_, ?_⟩
  · intro hs
    have : ¬ (s < 200 ∨ s ≥ 300) := by omega
    simp [this]
  · intro hs
    have : s < 200 ∨ s ≥ 300 := by omega
    simp [this]
  · intro hs
    exact parseInt_fmtInt s hs

theorem doRequest_classifies_by_status_witness :
    ((doRequest (serverReplying 400 "invalid request") testClient
        ⟨"GET", "http://127.0.0.1:8080/dns/domain/", Header.empty, none⟩ []).err =
      some (.errorf "status: 400, body: invalid request")) ∧
    ((doRequest (serverReplying 199 "a") testClient
        ⟨"GET", "http://127.0.0.1:8080/dns/domain/", Header.empty, none⟩ []).val = none) ∧
    ((doRequest (serverReplying 300 "b") testClient
        ⟨"GET", "http://127.0.0.1:8080/dns/domain/", Header.empty, none⟩ []).val = none) ∧
    ((doRequest (serverReplying 200 "c") testClient
        ⟨"GET", "http://127.0.0.1:8080/dns/domain/", Header.empty, none⟩ []).val = some "c") ∧
    ((doRequest (serverReplying 299 "d") testClient
        ⟨"GET", "http://127.0.0.1:8080/dns/domain/", Header.empty, none⟩ []).val = some "d") :=
  ⟨((doRequest_classifies_by_status (serverReplying 400 "invalid request") testClient
      ⟨"GET", "http://127.0.0.1:8080/dns/domain/", Header.empty, none⟩ [] 400
      "invalid request" ⟨_, rfl, rfl⟩).2.1 (by decide)).2,
   ((doRequest_classifies_by_status (serverReplying 199 "a") testClient
      ⟨"GET", "http://127.0.0.1:8080/dns/domain/", Header.empty, none⟩ [] 199 "a"
      ⟨_, rfl, rfl⟩).2.1 (by decide)).1,
   ((doRequest_classifies_by_status (serverReplying 300 "b") testClient
      ⟨"GET", "http://127.0.0.1:8080/dns/domain/", Header.empty, none⟩ [] 300 "b"
      ⟨_, rfl, rfl⟩).2.1 (by decide)).1,
   ((doRequest_classifies_by_status (serverReplying 200 "c") testClient
      ⟨"GET", "http://127.0.0.1:8080/dns/domain/", Header.empty, none⟩ [] 200 "c"
      ⟨_, rfl, rfl⟩).1 (by decide)).1,
   ((doRequest_classifies_by_status (serverReplying 299 "d") testClient
      ⟨"GET", "http://127.0.0.1:8080/dns/domain/", Header.empty, none⟩ [] 299 "d"
      ⟨_, rfl, rfl⟩).1 (by decide)).1⟩

/-! ## Request bodies -/

theorem CreateEntry_sent (env : Env) (c : Client) (dn : String) (e : Entry)
    (sent : List Request) (r : Request)
    (h : (CreateEntry env c dn e sent).sent = sent ++ [r]) :
    env.newRequestErr "POST" (c.BaseURL ++ "/dns/domain/" ++ dn ++ "/entry_set/") = none ∧
    r = setHeaders c ⟨"POST", c.BaseURL ++ "/dns/domain/" ++ dn ++ "/entry_set/",
      Header.empty, some (Marshal (marshalEntry e))⟩ := by
  unfold CreateEntry NewRequest at h
  cases hn : env.newRequestErr "POST" (c.BaseURL ++ "/dns/domain/" ++ dn ++ "/entry_set/") with
  | some x =>
    simp only [hn] at h
    have := congrArg List.length h
    simp at this
  | none =>
    simp only [hn] at h
    refine ⟨rfl, ?_⟩
    have h2 : (doRequest env c ⟨"POST", c.BaseURL ++ "/dns/domain/" ++ dn ++ "/entry_set/",
        Header.empty, some (Marshal (marshalEntry e))⟩ sent).sent = sent ++ [r] := by
      split at h <;> exact h
    rw [doRequest_sent] at h2
    have := List.append_cancel_left h2
    simpa using this.symm

theorem CreateEntry_sends (env : Env) (c : Client) (dn : String) (e : Entry)
    (sent : List Request)
    (hn : env.newRequestErr "POST" (c.BaseURL ++ "/dns/domain/" ++ dn ++ "/entry_set/") = none) :
    (CreateEntry env c dn e sent).sent =
      sent ++ [setHeaders c ⟨"POST", c.BaseURL ++ "/dns/domain/" ++ dn ++ "/entry_set/",
        Header.empty, some (Marshal (marshalEntry e))⟩] := by
  unfold CreateEntry NewRequest
  simp only [hn]
  split <;> exact doRequest_sent _ _ _ _

theorem marshalEntry_absent (e : Entry) (ht : e.TTL = none) (hp : e.Priority = none) :
    marshalEntry e = .obj ((if e.ID = 0 then [] else [("id", marshalInt e.ID)]) ++
      [("host", .str e.Host), ("type", .str e.Type_), ("ttl", .null),
       ("value", .str e.Value)]) := by
  simp [marshalEntry, ht, hp]

/-- What `CreateEntry` sends for an `Entry` whose ttl and priority are both
absent: the JSON body has no `prio` key, and has the `ttl` key with the value
`null`. The keys are `host`, `type`, `ttl`, `value`, preceded by `id` when the
id is not zero: of the two optional integers only `Priority` is left out. -/
theorem CreateEntry_body_omits_prio_sends_null_ttl (env : Env) (c : Client) (dn : String)
    (e : Entry) (sent : List Request) (ht : e.TTL = none) (hp : e.Priority = none) :
    (∀ r, (CreateEntry env c dn e sent).sent = sent ++ [r] →
      ∃ body, r.Body = some body ∧
        parseJson body = some (marshalEntry e) ∧
        bodyKeys body = (if e.ID = 0 then [] else ["id"]) ++ ["host", "type", "ttl", "value"] ∧
        "prio" ∉ bodyKeys body ∧
        "ttl" ∈ bodyKeys body ∧
        bodyHasNull body "ttl" = true) ∧
    (env.newRequestErr "POST" (c.BaseURL ++ "/dns/domain/" ++ dn ++ "/entry_set/") = none →
      ∃ r, (CreateEntry env c dn e sent).sent = sent ++ [r]) := by
  constructor
  · intro r hr
    obtain ⟨_, hreq⟩ := CreateEntry_sent env c dn e sent r hr
    have hparse := parseJson_Marshal (marshalEntry e) (Fits_marshalEntry _ e)
    refine ⟨Marshal (marshalEntry e), by rw [hreq]; rfl, hparse, ?_⟩
    have hkeys : bodyKeys (Marshal (marshalEntry e))
        = (if e.ID = 0 then [] else ["id"]) ++ ["host", "type", "ttl", "value"] := by
      simp only [bodyKeys, hparse]
      rw [marshalEntry_absent e ht hp]
      simp only [Json.keys]
      split_ifs <;> rfl
    refine ⟨hkeys, ?_, ?_, ?_⟩
    · rw [hkeys]
      split_ifs <;> decide
    · rw [hkeys]
      split_ifs <;> decide
    · simp only [bodyHasNull, hparse]
      rw [marshalEntry_absent e ht hp]
      simp only [Json.member]
      split_ifs <;> rfl
  · intro hn
    exact ⟨_, CreateEntry_sends env c dn e sent hn⟩

theorem CreateEntry_body_omits_prio_sends_null_ttl_witness :
    ∃ body,
      Request.Body (setHeaders testClient
        ⟨"POST", "http://127.0.0.1:8080/dns/domain/example.com/entry_set/", Header.empty,
          some (Marshal (marshalEntry ⟨0, "www", "A", none, "1.2.3.4", none⟩))⟩) = some body ∧
      parseJson body = some (marshalEntry ⟨0, "www", "A", none, "1.2.3.4", none⟩) ∧
      bodyKeys body = ["host", "type", "ttl", "value"] ∧
      "prio" ∉ bodyKeys body ∧
      "ttl" ∈ bodyKeys body ∧
      bodyHasNull body "ttl" = true :=
  (CreateEntry_body_omits_prio_sends_null_ttl echoServer testClient "example.com"
    ⟨0, "www", "A", none, "1.2.3.4", none⟩ [] rfl rfl).1 _ rfl

/-- C2, the code departs from the claim: for host `www`, type `A`, value
`1.2.3.4` and no ttl or priority, the body that `CreateEntry` sends has a `ttl`
key, with the value `null`, and no `prio` key. The field `TTL` is tagged
`json:"ttl"`, without the `omitempty` that the fields `Priority` and `ID` of
the same struct carry, so an absent ttl is not left out as an absent priority
is. -/
theorem CreateEntry_body_has_ttl_key :
    (CreateEntry echoServer testClient "example.com"
        ⟨0, "www", "A", none, "1.2.3.4", none⟩ []).sent.map Request.Body
      = [some "\x7b\"host\":\"www\",\"type\":\"A\",\"ttl\":null,\"value\":\"1.2.3.4\"\x7d"] ∧
    "ttl" ∈ bodyKeys "\x7b\"host\":\"www\",\"type\":\"A\",\"ttl\":null,\"value\":\"1.2.3.4\"\x7d" ∧
    ¬ (∀ b ∈ (CreateEntry echoServer testClient "example.com"
          ⟨0, "www", "A", none, "1.2.3.4", none⟩ []).sent.map Request.Body,
        ∀ body, b = some body → "ttl" ∉ bodyKeys body ∧ "prio" ∉ bodyKeys body) := by
  refine ⟨by decide, by decide, ?_⟩
  intro h
  have := h (some "\x7b\"host\":\"www\",\"type\":\"A\",\"ttl\":null,\"value\":\"1.2.3.4\"\x7d")
    (by decide) _ rfl
  exact this.1 (by decide)

/-! ## Round trips through JSON -/

theorem CreateEntry_answered (env : Env) (c : Client) (dn : String) (e : Entry)
    (sent : List Request) (s : Int) (b : String) (hs : 200 ≤ s ∧ s ≤ 299)
    (h : answered env sent (CreateEntry env c dn e sent).sent s b) :
    (CreateEntry env c dn e sent).val = some (Unmarshal decodeEntry b Entry.zero).1 ∧
    (CreateEntry env c dn e sent).err = (Unmarshal decodeEntry b Entry.zero).2 := by
  obtain ⟨r, hr, hrt⟩ := h
  obtain ⟨hn, hreq⟩ := CreateEntry_sent env c dn e sent r hr
  subst hreq
  have hd := doRequest_of_roundTrip env c _ sent s b hrt
  have hns : ¬ (s < 200 ∨ s ≥ 300) := by omega
  simp only [hns, if_false] at hd
  unfold CreateEntry NewRequest
  simp [hn, hd]

/-- C3: decoding the JSON that `json.Marshal` writes for an `Entry` gives the
entry back: ttl and priority keep their presence and their value (absent
stays absent, a present 0 stays a present 0). So `CreateEntry` returns the
entry it sent when the server echoes the request body with a 2xx status. -/
theorem Entry_json_round_trip (e : Entry) (h : e.wf) :
    Unmarshal decodeEntry (Marshal (marshalEntry e)) Entry.zero = (e, none) ∧
    (Unmarshal decodeEntry (Marshal (marshalEntry e)) Entry.zero).1.TTL = e.TTL ∧
    (Unmarshal decodeEntry (Marshal (marshalEntry e)) Entry.zero).1.Priority = e.Priority ∧
    (∀ (env : Env) (c : Client) (dn : String) (sent : List Request) (s : Int),
      200 ≤ s ∧ s ≤ 299 →
      answered env sent (CreateEntry env c dn e sent).sent s (Marshal (marshalEntry e)) →
      (CreateEntry env c dn e sent).val = some e ∧ (CreateEntry env c dn e sent).err = none) := by
  have hrt : Unmarshal decodeEntry (Marshal (marshalEntry e)) Entry.zero = (e, none) := by
    rw [Unmarshal_Marshal _ _ _ (Fits_marshalEntry _ e)]
    exact decodeEntry_marshalEntry e h
  refine ⟨hrt, by rw [hrt], by rw [hrt], ?_⟩
  intro env c dn sent s hs ha
  have := CreateEntry_answered env c dn e sent s _ hs ha
  rw [hrt] at this
  exact this

theorem Entry_json_round_trip_witness :
    (Unmarshal decodeEntry (Marshal (marshalEntry ⟨0, "www", "A", none, "1.2.3.4", some 0⟩))
        Entry.zero).1.TTL = none ∧
    (Unmarshal decodeEntry (Marshal (marshalEntry ⟨0, "www", "A", none, "1.2.3.4", some 0⟩))
        Entry.zero).1.Priority = some 0 ∧
    (Unmarshal decodeEntry (Marshal (marshalEntry ⟨0, "www", "A", some 0, "1.2.3.4", none⟩))
        Entry.zero).1.TTL = some 0 ∧
    (Unmarshal decodeEntry (Marshal (marshalEntry ⟨0, "www", "A", some 0, "1.2.3.4", none⟩))
        Entry.zero).1.Priority = none ∧
    (CreateEntry echoServer testClient "example.com" ⟨0, "www", "A", none, "1.2.3.4", some 0⟩
        []).val = some ⟨0, "www", "A", none, "1.2.3.4", some 0⟩ :=
  ⟨(Entry_json_round_trip ⟨0, "www", "A", none, "1.2.3.4", some 0⟩ (by decide)).2.1,
   (Entry_json_round_trip ⟨0, "www", "A", none, "1.2.3.4", some 0⟩ (by decide)).2.2.1,
   (Entry_json_round_trip ⟨0, "www", "A", some 0, "1.2.3.4", none⟩ (by decide)).2.1,
   (Entry_json_round_trip ⟨0, "www", "A", some 0, "1.2.3.4", none⟩ (by decide)).2.2.1,
   ((Entry_json_round_trip ⟨0, "www", "A", none, "1.2.3.4", some 0⟩ (by decide)).2.2.2
      echoServer testClient "example.com" [] 201 (by decide) ⟨_, rfl, rfl⟩).1⟩

/-! ## List-then-scan lookups -/

theorem scanDomains_eq_head (n : String) (ds : List Domain) :
    scanDomains n ds = (ds.filter (fun d => decide (d.Name = n))).head? := by
  induction ds with
  | nil => rfl
  | cons d ds ih =>
    by_cases h : d.Name = n
    · simp [scanDomains, h]
    · simp [scanDomains, h, ih]

theorem scanDomains_some_iff (n : String) (ds : List Domain) (d : Domain) :
    scanDomains n ds = some d ↔
      ∃ pre post, ds = pre ++ d :: post ∧ d.Name = n ∧ ∀ x ∈ pre, x.Name ≠ n := by
  induction ds with
  | nil => simp [scanDomains]
  | cons a ds ih =>
    by_cases h : a.Name = n
    · simp only [scanDomains, h, if_true, Option.some.injEq]
      constructor
      · intro e; subst e; exact ⟨[], ds, rfl, h, by simp⟩
      · rintro ⟨pre, post, hds, _, hpre⟩
        cases pre with
        | nil => simp at hds; exact hds.1
        | cons p pre =>
          simp at hds
          exact absurd h (hds.1 ▸ hpre p (by simp))
    · simp only [scanDomains, h, if_false, ih]
      constructor
      · rintro ⟨pre, post, hds, hd, hpre⟩
        refine ⟨a :: pre, post, by simp [hds], hd, ?_⟩
        intro x hx
        rcases List.mem_cons.mp hx with hx | hx
        · subst hx; exact h
        · exact hpre x hx
      · rintro ⟨pre, post, hds, hd, hpre⟩
        cases pre with
        | nil => simp at hds; exact absurd hd (hds.1 ▸ h)
        | cons p pre =>
          simp at hds
          exact ⟨pre, post, hds.2, hd, fun x hx => hpre x (by simp [hx])⟩

theorem scanDomains_none_iff (n : String) (ds : List Domain) :
    scanDomains n ds = none ↔ ∀ x ∈ ds, x.Name ≠ n := by
  induction ds with
  | nil => simp [scanDomains]
  | cons a ds ih =>
    by_cases h : a.Name = n
    · simp [scanDomains, h]
    · simp [scanDomains, h, ih]

theorem scanDomains_perm (n : String) (ds ds2 : List Domain) (hp : ds2.Perm ds)
    (h1 : (ds.filter (fun d => decide (d.Name = n))).length = 1) :
    scanDomains n ds2 = scanDomains n ds := by
  rw [scanDomains_eq_head, scanDomains_eq_head]
  obtain ⟨m, hm⟩ := List.length_eq_one.mp h1
  have hp2 := hp.filter (fun d => decide (d.Name = n))
  rw [hm] at hp2 ⊢
  rw [List.perm_singleton.mp hp2]

theorem GetDomain_of_list_ok (env : Env) (c : Client) (n : String) (sent : List Request)
    (hok : (ListDomains env c sent).err = none) :
    GetDomain env c n sent =
      match scanDomains n ((ListDomains env c sent).val.getD []) with
      | some d => ⟨some d, none, (ListDomains env c sent).sent⟩
      | none => ⟨none, some (.errorf ("domain " ++ n ++ " not found")),
          (ListDomains env c sent).sent⟩ := by
  simp only [GetDomain, hok]

/-- C4: after a successful `ListDomains` returning `ds`, `GetDomain n` returns
the first element of `ds` whose name is exactly `n`, with no error; it returns
no domain and the error `domain <n> not found` if and only if no element of
`ds` has the name `n`; and when exactly one element matches, the result is the
same for every permutation of `ds`. -/
theorem GetDomain_first_exact_match (env : Env) (c : Client) (n : String)
    (sent : List Request) (ds : List Domain)
    (hok : (ListDomains env c sent).err = none)
    (hds : (ListDomains env c sent).val.getD [] = ds) :
    (∀ d, (GetDomain env c n sent).val = some d ↔
      ∃ pre post, ds = pre ++ d :: post ∧ d.Name = n ∧ ∀ x ∈ pre, x.Name ≠ n) ∧
    ((GetDomain env c n sent).val ≠ none → (GetDomain env c n sent).err = none) ∧
    (((GetDomain env c n sent).val = none ∧
        (GetDomain env c n sent).err = some (.errorf ("domain " ++ n ++ " not found"))) ↔
      ∀ x ∈ ds, x.Name ≠ n) ∧
    ((GetDomain env c n sent).err ≠ none ↔ ∀ x ∈ ds, x.Name ≠ n) ∧
    (∀ (env2 : Env) (c2 : Client) (sent2 : List Request),
      (ListDomains env2 c2 sent2).err = none →
      ((ListDomains env2 c2 sent2).val.getD []).Perm ds →
      (ds.filter (fun d => decide (d.Name = n))).length = 1 →
      (GetDomain env2 c2 n sent2).val = (GetDomain env c n sent).val ∧
      (GetDomain env2 c2 n sent2).err = (GetDomain env c n sent).err) := by
  rw [GetDomain_of_list_ok env c n sent hok, hds]
  refine ⟨?_, ?_, ?_, ?_, ?_⟩
  · intro d
    rw [← scanDomains_some_iff]
    cases scanDomains n ds <;> simp
  · cases scanDomains n ds <;> simp
  · rw [← scanDomains_none_iff]
    cases scanDomains n ds <;> simp
  · rw [← scanDomains_none_iff]
    cases scanDomains n ds <;> simp
  · intro env2 c2 sent2 hok2 hperm h1
    rw [GetDomain_of_list_ok env2 c2 n sent2 hok2, scanDomains_perm n ds _ hperm h1]
    cases scanDomains n ds <;> simp

theorem GetDomain_first_exact_match_witness :
    (GetDomain twoDomains testClient "b.com" []).val
      = some ⟨"b.com", "", "", none, some ["x"]⟩ ∧
    (GetDomain twoDomains testClient "B.com" []).err
      = some (.errorf "domain B.com not found") :=
  ⟨((GetDomain_first_exact_match twoDomains testClient "b.com" []
      [⟨"a.com", "", "", none, none⟩, ⟨"b.com", "", "", none, some ["x"]⟩] rfl rfl).1
      ⟨"b.com", "", "", none, some ["x"]⟩).mpr
      ⟨[⟨"a.com", "", "", none, none⟩], [], rfl, rfl, by decide⟩,
   ((GetDomain_first_exact_match twoDomains testClient "B.com" []
      [⟨"a.com", "", "", none, none⟩, ⟨"b.com", "", "", none, some ["x"]⟩] rfl rfl).2.2.1.mpr
      (by decide)).2⟩

theorem scanEntries_some_iff (i : Int) (es : List Entry) (e : Entry) :
    scanEntries i es = some e ↔
      ∃ pre post, es = pre ++ e :: post ∧ e.ID = i ∧ ∀ x ∈ pre, x.ID ≠ i := by
  induction es with
  | nil => simp [scanEntries]
  | cons a es ih =>
    by_cases h : a.ID = i
    · simp only [scanEntries, h, if_true, Option.some.injEq]
      constructor
      · intro he; subst he; exact ⟨[], es, rfl, h, by simp⟩
      · rintro ⟨pre, post, hes, _, hpre⟩
        cases pre with
        | nil => simp at hes; exact hes.1
        | cons p pre =>
          simp at hes
          exact absurd h (hes.1 ▸ hpre p (by simp))
    · simp only [scanEntries, h, if_false, ih]
      constructor
      · rintro ⟨pre, post, hes, hd, hpre⟩
        refine ⟨a :: pre, post, by simp [hes], hd, ?_⟩
        intro x hx
        rcases List.mem_cons.mp hx with hx | hx
        · subst hx; exact h
        · exact hpre x hx
      · rintro ⟨pre, post, hes, hd, hpre⟩
        cases pre with
        | nil => simp at hes; exact absurd hd (hes.1 ▸ h)
        | cons p pre =>
          simp at hes
          exact ⟨pre, post, hes.2, hd, fun x hx => hpre x (by simp [hx])⟩

theorem scanEntries_none_iff (i : Int) (es : List Entry) :
    scanEntries i es = none ↔ ∀ x ∈ es, x.ID ≠ i := by
  induction es with
  | nil => simp [scanEntries]
  | cons a es ih =>
    by_cases h : a.ID = i
    · simp [scanEntries, h]
    · simp [scanEntries, h, ih]

theorem GetEntry_of_list_ok (env : Env) (c : Client) (dn : String) (i : Int)
    (sent : List Request) (hok : (ListEntries env c dn sent).err = none) :
    GetEntry env c dn i sent =
      match scanEntries i ((ListEntries env c dn sent).val.getD []) with
      | some e => ⟨some e, none, (ListEntries env c dn sent).sent⟩
      | none => ⟨none, some (.errorf ("entry " ++ sprintInt i ++ " not found in domain " ++ dn)),
          (ListEntries env c dn sent).sent⟩ := by
  simp only [GetEntry, hok]

theorem decodeEntryField_keeps_ID (e : Entry) (k : String) (v : Json)
    (h : fieldKey k ≠ "id") : (decodeEntryField e k v).1.ID = e.ID := by
  unfold decodeEntryField
  simp only [h, if_false]
  split_ifs <;> rfl

theorem decodeMembers_keeps_ID (kvs : List (String × Json))
    (h : ∀ kv ∈ kvs, fieldKey kv.1 ≠ "id") (e : Entry) :
    (decodeMembers decodeEntryField e kvs).1.ID = e.ID := by
  induction kvs generalizing e with
  | nil => rfl
  | cons kv kvs ih =>
    obtain ⟨k, v⟩ := kv
    simp only [decodeMembers]
    rw [ih (fun x hx => h x (by simp [hx])),
      decodeEntryField_keeps_ID e k v (h (k, v) (by simp))]

/-- C5: after a successful `ListEntries` returning `es`, `GetEntry i` returns
the first element of `es` whose id is `i`, with no error, and returns no entry
and the error `entry <i> not found in domain <domainName>` if and only if no
element of `es` has the id `i`. An entry decoded from an object without an
`id` member has the id 0, and an entry with the id 0 is matched by `i = 0`. -/
theorem GetEntry_first_id_match (env : Env) (c : Client) (dn : String) (i : Int)
    (sent : List Request) (es : List Entry)
    (hok : (ListEntries env c dn sent).err = none)
    (hes : (ListEntries env c dn sent).val.getD [] = es) :
    (∀ e, (GetEntry env c dn i sent).val = some e ↔
      ∃ pre post, es = pre ++ e :: post ∧ e.ID = i ∧ ∀ x ∈ pre, x.ID ≠ i) ∧
    ((GetEntry env c dn i sent).val ≠ none → (GetEntry env c dn i sent).err = none) ∧
    (((GetEntry env c dn i sent).val = none ∧
        (GetEntry env c dn i sent).err =
          some (.errorf ("entry " ++ sprintInt i ++ " not found in domain " ++ dn))) ↔
      ∀ x ∈ es, x.ID ≠ i) ∧
    ((GetEntry env c dn i sent).err ≠ none ↔ ∀ x ∈ es, x.ID ≠ i) ∧
    (∀ kvs : List (String × Json), (∀ kv ∈ kvs, fieldKey kv.1 ≠ "id") →
      (decodeEntry Entry.zero (.obj kvs)).1.ID = 0) ∧
    (∀ (e : Entry) (rest : List Entry), e.ID = 0 → scanEntries 0 (e :: rest) = some e) := by
  rw [GetEntry_of_list_ok env c dn i sent hok, hes]
  refine ⟨?_, ?_, ?_, ?_, ?_, ?_⟩
  · intro e
    rw [← scanEntries_some_iff]
    cases scanEntries i es <;> simp
  · cases scanEntries i es <;> simp
  · rw [← scanEntries_none_iff]
    cases scanEntries i es <;> simp
  · rw [← scanEntries_none_iff]
    cases scanEntries i es <;> simp
  · intro kvs h
    exact decodeMembers_keeps_ID kvs h Entry.zero
  · intro e rest h
    simp [scanEntries, h]

set_option maxRecDepth 8000 in
theorem GetEntry_first_id_match_witness :
    (GetEntry twoEntries testClient "a.com" 0 []).val
      = some ⟨0, "mail", "MX", some 300, "mx.a.com", some 10⟩ ∧
    (GetEntry twoEntries testClient "a.com" 8 []).err
      = some (.errorf "entry 8 not found in domain a.com") :=
  ⟨((GetEntry_first_id_match twoEntries testClient "a.com" 0 []
      [⟨7, "www", "A", none, "1.2.3.4", none⟩, ⟨0, "mail", "MX", some 300, "mx.a.com", some 10⟩]
      rfl rfl).1 ⟨0, "mail", "MX", some 300, "mx.a.com", some 10⟩).mpr
      ⟨[⟨7, "www", "A", none, "1.2.3.4", none⟩], [], rfl, rfl, by decide⟩,
   ((GetEntry_first_id_match twoEntries testClient "a.com" 8 []
      [⟨7, "www", "A", none, "1.2.3.4", none⟩, ⟨0, "mail", "MX", some 300, "mx.a.com", some 10⟩]
      rfl rfl).2.2.1.mpr (by decide)).2⟩

/-! ## Errors of the decoders -/

theorem firstErr_isJson (a b : Option GoError) (ha : ∀ e, a = some e → e.isJson)
    (hb : ∀ e, b = some e → e.isJson) : ∀ e, firstErr a b = some e → e.isJson := by
  intro e he
  cases a with
  | none => exact hb e (by simpa [firstErr] using he)
  | some x => exact ha e (by simpa [firstErr] using he)

theorem decodeString_isJson (old : String) (j : Json) :
    ∀ e, (decodeString old j).2 = some e → e.isJson := by
  intro e he
  cases j <;> simp [decodeString] at he <;> subst he <;> trivial

theorem decodeInt_isJson (old : Int) (j : Json) :
    ∀ e, (decodeInt old j).2 = some e → e.isJson := by
  intro e he
  cases j with
  | num lit =>
    simp only [decodeInt] at he
    split at he <;> simp at he
    subst he; trivial
  | null => simp [decodeInt] at he
  | bool b => simp [decodeInt] at he; subst he; trivial
  | str s => simp [decodeInt] at he; subst he; trivial
  | arr xs => simp [decodeInt] at he; subst he; trivial
  | obj kvs => simp [decodeInt] at he; subst he; trivial

theorem decodePtrInt_isJson (old : Option Int) (j : Json) :
    ∀ e, (decodePtrInt old j).2 = some e → e.isJson := by
  intro e he
  cases j with
  | null => simp [decodePtrInt] at he
  | num lit => exact decodeInt_isJson _ _ e (by simpa [decodePtrInt] using he)
  | bool b => exact decodeInt_isJson _ _ e (by simpa [decodePtrInt] using he)
  | str s => exact decodeInt_isJson _ _ e (by simpa [decodePtrInt] using he)
  | arr xs => exact decodeInt_isJson _ _ e (by simpa [decodePtrInt] using he)
  | obj kvs => exact decodeInt_isJson _ _ e (by simpa [decodePtrInt] using he)

theorem decodeElems_isJson {α : Type} (dec : α → Json → α × Option GoError) (zero : α)
    (hdec : ∀ old j e, (dec old j).2 = some e → e.isJson) (old : List α) (js : List Json) :
    ∀ e, (decodeElems dec zero old js).2 = some e → e.isJson := by
  induction js generalizing old with
  | nil => intro e he; simp [decodeElems] at he
  | cons j js ih =>
    simp only [decodeElems]
    exact firstErr_isJson _ _ (hdec _ _) (ih _)

theorem decodeSlice_isJson {α : Type} (dec : α → Json → α × Option GoError) (zero : α)
    (goType : String) (hdec : ∀ old j e, (dec old j).2 = some e → e.isJson)
    (old : Option (List α)) (j : Json) :
    ∀ e, (decodeSlice dec zero goType old j).2 = some e → e.isJson := by
  intro e he
  cases j with
  | null => simp [decodeSlice] at he
  | arr xs => exact decodeElems_isJson dec zero hdec _ xs e (by simpa [decodeSlice] using he)
  | num lit => simp [decodeSlice] at he; subst he; trivial
  | bool b => simp [decodeSlice] at he; subst he; trivial
  | str s => simp [decodeSlice] at he; subst he; trivial
  | obj kvs => simp [decodeSlice] at he; subst he; trivial

theorem decodeMembers_isJson {α : Type} (step : α → String → Json → α × Option GoError)
    (hstep : ∀ old k j e, (step old k j).2 = some e → e.isJson) (old : α)
    (kvs : List (String × Json)) :
    ∀ e, (decodeMembers step old kvs).2 = some e → e.isJson := by
  induction kvs generalizing old with
  | nil => intro e he; simp [decodeMembers] at he
  | cons kv kvs ih =>
    obtain ⟨k, v⟩ := kv
    simp only [decodeMembers]
    exact firstErr_isJson _ _ (hstep _ _ _) (ih _)

theorem decodeStruct_isJson {α : Type} (step : α → String → Json → α × Option GoError)
    (goType : String) (hstep : ∀ old k j e, (step old k j).2 = some e → e.isJson) (old : α)
    (j : Json) : ∀ e, (decodeStruct step goType old j).2 = some e → e.isJson := by
  intro e he
  cases j with
  | null => simp [decodeStruct] at he
  | obj kvs => exact decodeMembers_isJson step hstep old kvs e (by simpa [decodeStruct] using he)
  | num lit => simp [decodeStruct] at he; subst he; trivial
  | bool b => simp [decodeStruct] at he; subst he; trivial
  | str s => simp [decodeStruct] at he; subst he; trivial
  | arr xs => simp [decodeStruct] at he; subst he; trivial

theorem decodeEntryField_isJson (old : Entry) (k : String) (j : Json) :
    ∀ e, (decodeEntryField old k j).2 = some e → e.isJson := by
  intro e he
  unfold decodeEntryField at he
  simp only at he
  split_ifs at he
  · exact decodeInt_isJson _ _ e he
  · exact decodeString_isJson _ _ e he
  · exact decodeString_isJson _ _ e he
  · exact decodePtrInt_isJson _ _ e he
  · exact decodeString_isJson _ _ e he
  · exact decodePtrInt_isJson _ _ e he

theorem decodeEntry_isJson (old : Entry) (j : Json) :
    ∀ e, (decodeEntry old j).2 = some e → e.isJson :=
  decodeStruct_isJson _ _ decodeEntryField_isJson old j

theorem decodeDomainField_isJson (old : Domain) (k : String) (j : Json) :
    ∀ e, (decodeDomainField old k j).2 = some e → e.isJson := by
  intro e he
  unfold decodeDomainField at he
  simp only at he
  split_ifs at he
  · exact decodeString_isJson _ _ e he
  · exact decodeString_isJson _ _ e he
  · exact decodeString_isJson _ _ e he
  · exact decodeSlice_isJson _ _ _ decodeEntry_isJson _ _ e he
  · exact decodeSlice_isJson _ _ _ decodeString_isJson _ _ e he

theorem decodeDomain_isJson (old : Domain) (j : Json) :
    ∀ e, (decodeDomain old j).2 = some e → e.isJson :=
  decodeStruct_isJson _ _ decodeDomainField_isJson old j

theorem Unmarshal_isJson {α : Type} (dec : α → Json → α × Option GoError)
    (hdec : ∀ old j e, (dec old j).2 = some e → e.isJson) (data : String) (v : α) :
    ∀ e, (Unmarshal dec data v).2 = some e → e.isJson := by
  intro e he
  unfold Unmarshal at he
  split at he
  · simp at he; subst he; trivial
  · exact hdec _ _ e he

theorem status_prefix (x y z : String) :
    ∃ r, "status: " ++ x ++ y ++ z = "status: " ++ r :=
  ⟨x ++ y ++ z, by simp [String.append_assoc]⟩

theorem doRequest_err (env : Env) (c : Client) (req : Request) (sent : List Request) :
    ∀ e, (doRequest env c req sent).err = some e → e.fromTransport := by
  intro e he
  unfold doRequest at he
  simp only at he
  split at he
  · simp at he; subst he; trivial
  · split at he
    · simp at he; subst he; trivial
    · split at he
      · simp at he; subst he
        exact status_prefix _ _ _
      · simp at he

/-- The errors that `ListDomains` returns. -/
theorem ListDomains_err (env : Env) (c : Client) (sent : List Request) :
    ∀ e, (ListDomains env c sent).err = some e →
      e.isJson ∨ e.fromTransport ∨ ∃ x, e = .newRequest x := by
  intro e he
  unfold ListDomains NewRequest at he
  split at he
  · rename_i err h
    split at h
    · simp at h he; subst h; subst he; exact Or.inr (Or.inr ⟨_, rfl⟩)
    · simp at h
  · simp only at he
    split at he
    · rename_i _ _ err herr
      simp at he; subst he
      exact Or.inr (Or.inl (doRequest_err _ _ _ _ _ herr))
    · exact Or.inl (Unmarshal_isJson _ (fun old j =>
        decodeSlice_isJson _ _ _ decodeDomain_isJson old j) _ _ e he)

theorem ListEntries_err (env : Env) (c : Client) (dn : String) (sent : List Request) :
    ∀ e, (ListEntries env c dn sent).err = some e →
      e.isJson ∨ e.fromTransport ∨ ∃ x, e = .newRequest x := by
  intro e he
  unfold ListEntries NewRequest at he
  split at he
  · rename_i err h
    split at h
    · simp at h he; subst h; subst he; exact Or.inr (Or.inr ⟨_, rfl⟩)
    · simp at h
  · simp only at he
    split at he
    · rename_i _ _ err herr
      simp at he; subst he
      exact Or.inr (Or.inl (doRequest_err _ _ _ _ _ herr))
    · exact Or.inl (Unmarshal_isJson _ (fun old j =>
        decodeSlice_isJson _ _ _ decodeEntry_isJson old j) _ _ e he)

theorem list_err_ne_errorf (e : GoError) (t : String) (h1 : t.data.head? ≠ some 's')
    (h : e.isJson ∨ e.fromTransport ∨ ∃ x, e = .newRequest x) : e ≠ .errorf t := by
  intro heq
  subst heq
  rcases h with h | h | ⟨x, h⟩
  · exact h
  · obtain ⟨r, hr⟩ := h
    apply h1
    rw [hr]
    rfl
  · cases h

theorem ListDomains_sent (env : Env) (c : Client) (sent : List Request) :
    (ListDomains env c sent).sent = sent ∨ ∃ r, (ListDomains env c sent).sent = sent ++ [r] := by
  unfold ListDomains
  split
  · exact Or.inl rfl
  · rename_i req _
    refine Or.inr ⟨setHeaders c req, ?_⟩
    simp only
    split <;> exact doRequest_sent _ _ _ _

theorem ListEntries_sent (env : Env) (c : Client) (dn : String) (sent : List Request) :
    (ListEntries env c dn sent).sent = sent ∨
      ∃ r, (ListEntries env c dn sent).sent = sent ++ [r] := by
  unfold ListEntries
  split
  · exact Or.inl rfl
  · rename_i req _
    refine Or.inr ⟨setHeaders c req, ?_⟩
    simp only
    split <;> exact doRequest_sent _ _ _ _

/-- C6: when `ListDomains` (respectively `ListEntries`) returns an error,
`GetDomain` (respectively `GetEntry`) returns exactly that error and no result,
the error is not the not-found error of the lookup, and the log of requests is
the one the list call left: no further request is made. -/
theorem lookup_returns_list_error_unchanged (env : Env) (c : Client) (sent : List Request) :
    (∀ (n : String) (e : GoError), (ListDomains env c sent).err = some e →
      (GetDomain env c n sent).val = none ∧
      (GetDomain env c n sent).err = some e ∧
      (GetDomain env c n sent).sent = (ListDomains env c sent).sent ∧
      e ≠ .errorf ("domain " ++ n ++ " not found") ∧
      ((ListDomains env c sent).sent = sent ∨
        ∃ r, (ListDomains env c sent).sent = sent ++ [r])) ∧
    (∀ (dn : String) (i : Int) (e : GoError), (ListEntries env c dn sent).err = some e →
      (GetEntry env c dn i sent).val = none ∧
      (GetEntry env c dn i sent).err = some e ∧
      (GetEntry env c dn i sent).sent = (ListEntries env c dn sent).sent ∧
      e ≠ .errorf ("entry " ++ sprintInt i ++ " not found in domain " ++ dn) ∧
      ((ListEntries env c dn sent).sent = sent ∨
        ∃ r, (ListEntries env c dn sent).sent = sent ++ [r])) := by
  constructor
  · intro n e he
    refine ⟨?_, ?_, ?_, ?_, ListDomains_sent env c sent⟩
    · simp only [GetDomain, he]
    · simp only [GetDomain, he]
    · simp only [GetDomain, he]
    · exact list_err_ne_errorf e _ (by simp [String.append_assoc])
        (ListDomains_err env c sent e he)
  · intro dn i e he
    refine ⟨?_, ?_, ?_, ?_, ListEntries_sent env c dn sent⟩
    · simp only [GetEntry, he]
    · simp only [GetEntry, he]
    · simp only [GetEntry, he]
    · exact list_err_ne_errorf e _ (by simp [String.append_assoc])
        (ListEntries_err env c dn sent e he)

theorem lookup_returns_list_error_unchanged_witness :
    (GetDomain (serverReplying 400 "invalid request") testClient "example.com" []).val = none ∧
    (GetDomain (serverReplying 400 "invalid request") testClient "example.com" []).err
      = some (.errorf "status: 400, body: invalid request") ∧
    (GetEntry (serverReplying 200 "not json") testClient "example.com" 7 []).err
      = some .jsonSyntax :=
  ⟨((lookup_returns_list_error_unchanged (serverReplying 400 "invalid request") testClient []).1
      "example.com" (.errorf "status: 400, body: invalid request") rfl).1,
   ((lookup_returns_list_error_unchanged (serverReplying 400 "invalid request") testClient []).1
      "example.com" (.errorf "status: 400, body: invalid request") rfl).2.1,
   ((lookup_returns_list_error_unchanged (serverReplying 200 "not json") testClient []).2
      "example.com" 7 .jsonSyntax rfl).2.1⟩

/-! ## Results returned together with an error -/

/-- C7 fails on the code: with a 2xx response whose body is not JSON,
`CreateDomain`, `CreateEntry` and `UpdateEntry` return the decode error
together with a non-nil object (the zero value); with a body of the wrong
shape they return the error together with a partially filled object, and
`ListDomains` the error together with the slice decoded so far. -/
theorem decode_error_comes_with_a_result :
    ((CreateDomain (serverReplying 200 "not json") testClient "new.com" "1.1.1.1" []).val
        = some Domain.zero ∧
      (CreateDomain (serverReplying 200 "not json") testClient "new.com" "1.1.1.1" []).err
        = some .jsonSyntax) ∧
    ((CreateEntry (serverReplying 200 "not json") testClient "new.com" Entry.zero []).val
        = some Entry.zero ∧
      (CreateEntry (serverReplying 200 "not json") testClient "new.com" Entry.zero []).err
        = some .jsonSyntax) ∧
    ((UpdateEntry (serverReplying 200 "not json") testClient "new.com" 7 Entry.zero []).val
        = some Entry.zero ∧
      (UpdateEntry (serverReplying 200 "not json") testClient "new.com" 7 Entry.zero []).err
        = some .jsonSyntax) ∧
    ((CreateDomain (serverReplying 200 "\x7b\"name\":\"new.com\",\"created\":5\x7d") testClient
        "new.com" "1.1.1.1" []).val = some ⟨"new.com", "", "", none, none⟩ ∧
      (CreateDomain (serverReplying 200 "\x7b\"name\":\"new.com\",\"created\":5\x7d") testClient
        "new.com" "1.1.1.1" []).err = some (.jsonType "number" "string")) ∧
    ((ListDomains (serverReplying 200 "[\x7b\"name\":\"a.com\"\x7d,\x7b\"name\":5\x7d]")
        testClient []).val = some [⟨"a.com", "", "", none, none⟩, Domain.zero] ∧
      (ListDomains (serverReplying 200 "[\x7b\"name\":\"a.com\"\x7d,\x7b\"name\":5\x7d]")
        testClient []).err = some (.jsonType "number" "string")) := by
  refine ⟨⟨?_, ?_⟩, ⟨?_, ?_⟩, ⟨?_, ?_⟩, ⟨?_, ?_⟩, ⟨?_, ?_⟩⟩ <;> decide

/-! ## Headers -/

/-- C8: the request that `doRequest` sends carries exactly one `Authorization`
value, `Api-Key ` followed by the API key, and exactly one `Content-Type`
value, `application/json`, whatever headers the request had; method, URL and
body are those of the request. -/
theorem doRequest_sets_both_headers_once (env : Env) (c : Client) (req : Request)
    (sent : List Request) :
    ∃ r, (doRequest env c req sent).sent = sent ++ [r] ∧
      r.Header.Values "Authorization" = ["Api-Key " ++ c.APIKey] ∧
      r.Header.Values "Content-Type" = ["application/json"] ∧
      r.Header.entries.filter (fun kv => kv.1 = "Authorization")
        = [("Authorization", ["Api-Key " ++ c.APIKey])] ∧
      r.Header.entries.filter (fun kv => kv.1 = "Content-Type")
        = [("Content-Type", ["application/json"])] ∧
      r.Method = req.Method ∧ r.URL = req.URL ∧ r.Body = req.Body := by
  refine ⟨setHeaders c req, doRequest_sent env c req sent, ?_, ?_, ?_, ?_, rfl, rfl, rfl⟩
  · have : ("Content-Type" == "Authorization") = false := by decide
    have h2 : ("Authorization" != "Content-Type") = true := by decide
    simp [setHeaders, Header.Set, Header.Values, List.lookup, this, h2]
  · simp [setHeaders, Header.Set, Header.Values, List.lookup]
  · have h1 : ¬ ("Content-Type" = "Authorization") := by decide
    have h2 : ("Authorization" != "Content-Type") = true := by decide
    simp [setHeaders, Header.Set, h1, h2, List.filter_filter]
    intro a _ _ ha _
    exact ha
  · simp [setHeaders, Header.Set, List.filter_filter]
    intro a _ _ ha hn
    exact absurd ha hn

/-! ## One round trip per operation -/

theorem not_answered_self (env : Env) (sent : List Request) (s : Int) (b : String) :
    ¬ answered env sent sent s b := by
  rintro ⟨r, hr, _⟩
  have := congrArg List.length hr
  simp at this

theorem doRequest_answered (env : Env) (c : Client) (req : Request) (sent : List Request)
    (s : Int) (b : String) (h : answered env sent (doRequest env c req sent).sent s b) :
    doRequest env c req sent =
      if s < 200 ∨ s ≥ 300 then
        ⟨none, some (.errorf ("status: " ++ sprintInt s ++ ", body: " ++ b)),
          sent ++ [setHeaders c req]⟩
      else ⟨some b, none, sent ++ [setHeaders c req]⟩ :=
  doRequest_of_roundTrip env c req sent s b (answered_doRequest env c req sent s b h)

theorem DeleteDomain_answered (env : Env) (c : Client) (name : String) (sent : List Request)
    (s : Int) (b : String) (h : answered env sent (DeleteDomain env c name sent).sent s b) :
    (DeleteDomain env c name sent).err =
      if s < 200 ∨ s ≥ 300 then
        some (.errorf ("status: " ++ sprintInt s ++ ", body: " ++ b))
      else none := by
  unfold DeleteDomain NewRequest at h ⊢
  cases hn : env.newRequestErr "DELETE" (c.BaseURL ++ "/dns/domain/" ++ name ++ "/") with
  | some e =>
    simp only [hn] at h
    exact absurd h (not_answered_self env sent s b)
  | none =>
    simp only [hn] at h ⊢
    rw [doRequest_answered env c _ sent s b h]
    split <;> rfl

theorem DeleteEntry_answered (env : Env) (c : Client) (dn : String) (i : Int)
    (sent : List Request) (s : Int) (b : String)
    (h : answered env sent (DeleteEntry env c dn i sent).sent s b) :
    (DeleteEntry env c dn i sent).err =
      if s < 200 ∨ s ≥ 300 then
        some (.errorf ("status: " ++ sprintInt s ++ ", body: " ++ b))
      else none := by
  unfold DeleteEntry NewRequest at h ⊢
  cases hn : env.newRequestErr "DELETE"
      (c.BaseURL ++ "/dns/domain/" ++ dn ++ "/entry_set/" ++ sprintInt i ++ "/") with
  | some e =>
    simp only [hn] at h
    exact absurd h (not_answered_self env sent s b)
  | none =>
    simp only [hn] at h ⊢
    rw [doRequest_answered env c _ sent s b h]
    split <;> rfl

/-- C9: when `DeleteDomain` or `DeleteEntry` receives a response with status
`s` and body `b`, it returns an error if and only if `s` is outside 200-299;
a 2xx response gives no error whatever the body, and any other status gives
the API error with the status and the body, with no case suppressed. -/
theorem delete_fails_iff_status_not_2xx (env : Env) (c : Client) (sent : List Request)
    (s : Int) (b : String) :
    (∀ name : String, answered env sent (DeleteDomain env c name sent).sent s b →
      ((DeleteDomain env c name sent).err = none ↔ (200 ≤ s ∧ s ≤ 299)) ∧
      (¬ (200 ≤ s ∧ s ≤ 299) → (DeleteDomain env c name sent).err =
        some (.errorf ("status: " ++ sprintInt s ++ ", body: " ++ b)))) ∧
    (∀ (dn : String) (i : Int), answered env sent (DeleteEntry env c dn i sent).sent s b →
      ((DeleteEntry env c dn i sent).err = none ↔ (200 ≤ s ∧ s ≤ 299)) ∧
      (¬ (200 ≤ s ∧ s ≤ 299) → (DeleteEntry env c dn i sent).err =
        some (.errorf ("status: " ++ sprintInt s ++ ", body: " ++ b)))) := by
  constructor
  · intro name h
    rw [DeleteDomain_answered env c name sent s b h]
    by_cases hs : s < 200 ∨ s ≥ 300
    · have : ¬ (200 ≤ s ∧ s ≤ 299) := by omega
      simp [hs, this]
    · have : 200 ≤ s ∧ s ≤ 299 := by omega
      simp [hs, this]
  · intro dn i h
    rw [DeleteEntry_answered env c dn i sent s b h]
    by_cases hs : s < 200 ∨ s ≥ 300
    · have : ¬ (200 ≤ s ∧ s ≤ 299) := by omega
      simp [hs, this]
    · have : 200 ≤ s ∧ s ≤ 299 := by omega
      simp [hs, this]

theorem delete_fails_iff_status_not_2xx_witness :
    (DeleteDomain (serverReplying 204 "") testClient "example.com" []).err = none ∧
    (DeleteDomain (serverReplying 200 "not json") testClient "example.com" []).err = none ∧
    (DeleteDomain (serverReplying 404 "Not found.") testClient "example.com" []).err
      = some (.errorf "status: 404, body: Not found.") ∧
    (DeleteEntry (serverReplying 404 "Not found.") testClient "example.com" 42 []).err
      = some (.errorf "status: 404, body: Not found.") :=
  ⟨(((delete_fails_iff_status_not_2xx (serverReplying 204 "") testClient [] 204 "").1
      "example.com" ⟨_, rfl, rfl⟩).1).mpr (by decide),
   (((delete_fails_iff_status_not_2xx (serverReplying 200 "not json") testClient [] 200
      "not json").1 "example.com" ⟨_, rfl, rfl⟩).1).mpr (by decide),
   ((delete_fails_iff_status_not_2xx (serverReplying 404 "Not found.") testClient [] 404
      "Not found.").1 "example.com" ⟨_, rfl, rfl⟩).2 (by decide),
   ((delete_fails_iff_status_not_2xx (serverReplying 404 "Not found.") testClient [] 404
      "Not found.").2 "example.com" 42 ⟨_, rfl, rfl⟩).2 (by decide)⟩

/-! ## `CreateDomain` -/

theorem CreateDomain_sent (env : Env) (c : Client) (name ip : String)
    (sent : List Request) (r : Request)
    (h : (CreateDomain env c name ip sent).sent = sent ++ [r]) :
    env.newRequestErr "POST" (c.BaseURL ++ "/dns/domain/") = none ∧
    r = setHeaders c ⟨"POST", c.BaseURL ++ "/dns/domain/", Header.empty,
      some (Marshal (marshalDomainRequest ⟨name, ip⟩))⟩ := by
  unfold CreateDomain NewRequest at h
  cases hn : env.newRequestErr "POST" (c.BaseURL ++ "/dns/domain/") with
  | some x =>
    simp only [hn] at h
    have := congrArg List.length h
    simp at this
  | none =>
    simp only [hn] at h
    refine ⟨rfl, ?_⟩
    have h2 : (doRequest env c ⟨"POST", c.BaseURL ++ "/dns/domain/",
        Header.empty, some (Marshal (marshalDomainRequest ⟨name, ip⟩))⟩ sent).sent
          = sent ++ [r] := by
      split at h <;> exact h
    rw [doRequest_sent] at h2
    have := List.append_cancel_left h2
    simpa using this.symm

theorem CreateDomain_sends (env : Env) (c : Client) (name ip : String) (sent : List Request)
    (hn : env.newRequestErr "POST" (c.BaseURL ++ "/dns/domain/") = none) :
    (CreateDomain env c name ip sent).sent =
      sent ++ [setHeaders c ⟨"POST", c.BaseURL ++ "/dns/domain/", Header.empty,
        some (Marshal (marshalDomainRequest ⟨name, ip⟩))⟩] := by
  unfold CreateDomain NewRequest
  simp only [hn]
  split <;> exact doRequest_sent _ _ _ _

theorem CreateDomain_answered (env : Env) (c : Client) (name ip : String)
    (sent : List Request) (s : Int) (b : String) (hs : 200 ≤ s ∧ s ≤ 299)
    (h : answered env sent (CreateDomain env c name ip sent).sent s b) :
    (CreateDomain env c name ip sent).val = some (Unmarshal decodeDomain b Domain.zero).1 ∧
    (CreateDomain env c name ip sent).err = (Unmarshal decodeDomain b Domain.zero).2 := by
  obtain ⟨r, hr, hrt⟩ := h
  obtain ⟨hn, hreq⟩ := CreateDomain_sent env c name ip sent r hr
  subst hreq
  have hd := doRequest_of_roundTrip env c _ sent s b hrt
  have hns : ¬ (s < 200 ∨ s ≥ 300) := by omega
  simp only [hns, if_false] at hd
  unfold CreateDomain NewRequest
  simp [hn, hd]

theorem skipWs_all (l : List Char)
    (h : ∀ c ∈ l, c = ' ' ∨ c = '\t' ∨ c = '\r' ∨ c = '\n') : skipWs l = [] := by
  induction l with
  | nil => rfl
  | cons c l ih =>
    have hc := h c (by simp)
    simp only [skipWs, hc, if_true]
    exact ih (fun x hx => h x (by simp [hx]))

theorem numEnd_ws (l : List Char)
    (h : ∀ c ∈ l, c = ' ' ∨ c = '\t' ∨ c = '\r' ∨ c = '\n') : numEnd l := by
  cases l with
  | nil => trivial
  | cons c l =>
    have hc := h c (by simp)
    simp only [numEnd]
    rcases hc with hc | hc | hc | hc <;> subst hc <;> decide

theorem parseJson_Marshal_ws (j : Json) (h : Fits (maxNestingDepth + 1) j) (ws : String)
    (hws : ∀ c ∈ ws.data, c = ' ' ∨ c = '\t' ∨ c = '\r' ∨ c = '\n') :
    parseJson (Marshal j ++ ws) = some j := by
  have := parseValue_render _ j h ws.data (numEnd_ws _ hws)
  simp [parseJson, Marshal, String.data_append, this, skipWs_all _ hws]

theorem decodeDomainField_keeps_Name (d : Domain) (k : String) (v : Json)
    (h : fieldKey k ≠ "name") : (decodeDomainField d k v).1.Name = d.Name := by
  unfold decodeDomainField
  simp only [h, if_false]
  split_ifs <;> rfl

theorem decodeMembers_keeps_Name (kvs : List (String × Json))
    (h : ∀ kv ∈ kvs, fieldKey kv.1 ≠ "name") (d : Domain) :
    (decodeMembers decodeDomainField d kvs).1.Name = d.Name := by
  induction kvs generalizing d with
  | nil => rfl
  | cons kv kvs ih =>
    obtain ⟨k, v⟩ := kv
    simp only [decodeMembers]
    rw [ih (fun x hx => h x (by simp [hx])),
      decodeDomainField_keeps_Name d k v (h (k, v) (by simp))]

theorem decodeMembers_append {α : Type} (step : α → String → Json → α × Option GoError)
    (t : α) (xs ys : List (String × Json)) :
    (decodeMembers step t (xs ++ ys)).1
      = (decodeMembers step (decodeMembers step t xs).1 ys).1 := by
  induction xs generalizing t with
  | nil => rfl
  | cons kv xs ih =>
    obtain ⟨k, v⟩ := kv
    simp only [List.cons_append, decodeMembers]
    exact ih _

theorem decodeDomain_name (pre post : List (String × Json)) (k n : String)
    (hk : fieldKey k = "name") (hpost : ∀ kv ∈ post, fieldKey kv.1 ≠ "name") (d : Domain) :
    (decodeDomain d (.obj (pre ++ (k, .str n) :: post))).1.Name = n := by
  simp only [decodeDomain, decodeStruct]
  rw [decodeMembers_append]
  simp only [decodeMembers]
  rw [decodeMembers_keeps_Name post hpost]
  simp [decodeDomainField, hk, decodeString]

/-- C10: the request that `CreateDomain(name, ip)` sends is a POST to
`<BaseURL>/dns/domain/` whose body is the JSON object with exactly the keys
`name` and `ip`, holding `name` and `ip`, and decoding the body as a
`DomainRequest` gives back `(name, ip)`; it is sent whenever the request can
be built. Given a 2xx response whose body is the JSON of a `Domain`, followed
by white space or not, the call returns that domain and no error; and for any
2xx response whose body is a JSON object, the `Name` of the returned domain is
the string of the last `name` member of the response, the error being the
decoder's. -/
theorem CreateDomain_request_and_result (env : Env) (c : Client) (name ip : String)
    (sent : List Request) :
    (∀ r, (CreateDomain env c name ip sent).sent = sent ++ [r] →
      r.Method = "POST" ∧ r.URL = c.BaseURL ++ "/dns/domain/" ∧
      ∃ body, r.Body = some body ∧
        parseJson body = some (.obj [("name", .str name), ("ip", .str ip)]) ∧
        bodyKeys body = ["name", "ip"] ∧
        Unmarshal decodeDomainRequest body DomainRequest.zero = (⟨name, ip⟩, none)) ∧
    (env.newRequestErr "POST" (c.BaseURL ++ "/dns/domain/") = none →
      ∃ r, (CreateDomain env c name ip sent).sent = sent ++ [r]) ∧
    (∀ (s : Int) (d : Domain) (ws : String), 200 ≤ s ∧ s ≤ 299 → d.wf →
      (∀ ch ∈ ws.data, ch = ' ' ∨ ch = '\t' ∨ ch = '\r' ∨ ch = '\n') →
      answered env sent (CreateDomain env c name ip sent).sent s
        (Marshal (marshalDomain d) ++ ws) →
      (CreateDomain env c name ip sent).val = some d ∧
      (CreateDomain env c name ip sent).err = none) ∧
    (∀ (s : Int) (b : String) (pre post : List (String × Json)) (k n : String),
      200 ≤ s ∧ s ≤ 299 →
      answered env sent (CreateDomain env c name ip sent).sent s b →
      parseJson b = some (.obj (pre ++ (k, .str n) :: post)) →
      fieldKey k = "name" → (∀ kv ∈ post, fieldKey kv.1 ≠ "name") →
      (∃ x, (CreateDomain env c name ip sent).val = some x ∧ x.Name = n) ∧
      (CreateDomain env c name ip sent).err
        = (decodeDomain Domain.zero (.obj (pre ++ (k, .str n) :: post))).2) := by
  refine ⟨?_, ?_, ?_, ?_⟩
  · intro r hr
    obtain ⟨_, hreq⟩ := CreateDomain_sent env c name ip sent r hr
    have hparse := parseJson_Marshal (marshalDomainRequest ⟨name, ip⟩)
      (Fits_marshalDomainRequest _ _)
    refine ⟨by rw [hreq]; rfl, by rw [hreq]; rfl,
      Marshal (marshalDomainRequest ⟨name, ip⟩), by rw [hreq]; rfl, hparse, ?_, ?_⟩
    · simp only [bodyKeys, hparse]
      rfl
    · rw [Unmarshal_Marshal _ _ _ (Fits_marshalDomainRequest _ _)]
      exact decodeDomainRequest_marshal ⟨name, ip⟩
  · intro hn
    exact ⟨_, CreateDomain_sends env c name ip sent hn⟩
  · intro s d ws hs hd hws ha
    have h := CreateDomain_answered env c name ip sent s _ hs ha
    have hp := parseJson_Marshal_ws (marshalDomain d) (Fits_marshalDomain _ d) ws hws
    simp only [Unmarshal, hp, decodeDomain_marshalDomain d hd] at h
    exact h
  · intro s b pre post k n hs ha hp hk hpost
    have h := CreateDomain_answered env c name ip sent s b hs ha
    simp only [Unmarshal, hp] at h
    exact ⟨⟨_, h.1, decodeDomain_name pre post k n hk hpost Domain.zero⟩, h.2⟩

theorem CreateDomain_request_and_result_witness :
    (∃ x, (CreateDomain (serverReplying 201 "\x7b\"name\":\"new.com\"\x7d") testClient
        "new.com" "1.1.1.1" []).val = some x ∧ x.Name = "new.com") ∧
    (CreateDomain (serverReplying 201 "\x7b\"name\":\"new.com\"\x7d") testClient
        "new.com" "1.1.1.1" []).err = none ∧
    (CreateDomain
        (serverReplying 201 (Marshal (marshalDomain ⟨"new.com", "", "", none, none⟩) ++ "\n"))
        testClient "new.com" "1.1.1.1" []).val = some ⟨"new.com", "", "", none, none⟩ :=
  ⟨((CreateDomain_request_and_result (serverReplying 201 "\x7b\"name\":\"new.com\"\x7d")
      testClient "new.com" "1.1.1.1" []).2.2.2 201 "\x7b\"name\":\"new.com\"\x7d" [] []
      "name" "new.com" (by decide) ⟨_, rfl, rfl⟩ rfl (by decide) (by simp)).1,
   ((CreateDomain_request_and_result (serverReplying 201 "\x7b\"name\":\"new.com\"\x7d")
      testClient "new.com" "1.1.1.1" []).2.2.2 201 "\x7b\"name\":\"new.com\"\x7d" [] []
      "name" "new.com" (by decide) ⟨_, rfl, rfl⟩ rfl (by decide) (by simp)).2,
   ((CreateDomain_request_and_result
      (serverReplying 201 (Marshal (marshalDomain ⟨"new.com", "", "", none, none⟩) ++ "\n"))
      testClient "new.com" "1.1.1.1" []).2.2.1 201 ⟨"new.com", "", "", none, none⟩ "\n"
      (by decide) (by decide) (by decide) ⟨_, rfl, rfl⟩).1⟩

/-! ## Methods and URLs -/

theorem append_singleton_cancel {α : Type} (l : List α) (a b : α) (h : l ++ [a] = l ++ [b]) :
    a = b := by
  have := List.append_cancel_left h
  simpa using this

theorem ne_append_singleton {α : Type} (l : List α) (a : α) : l ≠ l ++ [a] := by
  intro h
  have := congrArg List.length h
  simp at this

theorem ListDomains_log (env : Env) (c : Client) (sent : List Request) :
    (ListDomains env c sent).sent =
      match env.newRequestErr "GET" (c.BaseURL ++ "/dns/domain/") with
      | some _ => sent
      | none => sent ++ [setHeaders c ⟨"GET", c.BaseURL ++ "/dns/domain/", Header.empty, none⟩] := by
  unfold ListDomains NewRequest
  cases env.newRequestErr "GET" (c.BaseURL ++ "/dns/domain/") with
  | some x => rfl
  | none =>
    simp only
    split <;> exact doRequest_sent _ _ _ _

theorem CreateDomain_log (env : Env) (c : Client) (name ip : String) (sent : List Request) :
    (CreateDomain env c name ip sent).sent =
      match env.newRequestErr "POST" (c.BaseURL ++ "/dns/domain/") with
      | some _ => sent
      | none => sent ++ [setHeaders c ⟨"POST", c.BaseURL ++ "/dns/domain/", Header.empty,
          some (Marshal (marshalDomainRequest ⟨name, ip⟩))⟩] := by
  unfold CreateDomain NewRequest
  cases env.newRequestErr "POST" (c.BaseURL ++ "/dns/domain/") with
  | some x => rfl
  | none =>
    simp only
    split <;> exact doRequest_sent _ _ _ _

theorem DeleteDomain_log (env : Env) (c : Client) (n : String) (sent : List Request) :
    (DeleteDomain env c n sent).sent =
      match env.newRequestErr "DELETE" (c.BaseURL ++ "/dns/domain/" ++ n ++ "/") with
      | some _ => sent
      | none => sent ++ [setHeaders c
          ⟨"DELETE", c.BaseURL ++ "/dns/domain/" ++ n ++ "/", Header.empty, none⟩] := by
  unfold DeleteDomain NewRequest
  cases env.newRequestErr "DELETE" (c.BaseURL ++ "/dns/domain/" ++ n ++ "/") with
  | some x => rfl
  | none => exact doRequest_sent _ _ _ _

theorem ListEntries_log (env : Env) (c : Client) (n : String) (sent : List Request) :
    (ListEntries env c n sent).sent =
      match env.newRequestErr "GET" (c.BaseURL ++ "/dns/domain/" ++ n ++ "/entry_set/") with
      | some _ => sent
      | none => sent ++ [setHeaders c
          ⟨"GET", c.BaseURL ++ "/dns/domain/" ++ n ++ "/entry_set/", Header.empty, none⟩] := by
  unfold ListEntries NewRequest
  cases env.newRequestErr "GET" (c.BaseURL ++ "/dns/domain/" ++ n ++ "/entry_set/") with
  | some x => rfl
  | none =>
    simp only
    split <;> exact doRequest_sent _ _ _ _

theorem CreateEntry_log (env : Env) (c : Client) (n : String) (e : Entry)
    (sent : List Request) :
    (CreateEntry env c n e sent).sent =
      match env.newRequestErr "POST" (c.BaseURL ++ "/dns/domain/" ++ n ++ "/entry_set/") with
      | some _ => sent
      | none => sent ++ [setHeaders c
          ⟨"POST", c.BaseURL ++ "/dns/domain/" ++ n ++ "/entry_set/", Header.empty,
            some (Marshal (marshalEntry e))⟩] := by
  unfold CreateEntry NewRequest
  cases env.newRequestErr "POST" (c.BaseURL ++ "/dns/domain/" ++ n ++ "/entry_set/") with
  | some x => rfl
  | none =>
    simp only
    split <;> exact doRequest_sent _ _ _ _

theorem UpdateEntry_log (env : Env) (c : Client) (n : String) (i : Int) (e : Entry)
    (sent : List Request) :
    (UpdateEntry env c n i e sent).sent =
      match env.newRequestErr "PUT"
          (c.BaseURL ++ "/dns/domain/" ++ n ++ "/entry_set/" ++ sprintInt i ++ "/") with
      | some _ => sent
      | none => sent ++ [setHeaders c
          ⟨"PUT", c.BaseURL ++ "/dns/domain/" ++ n ++ "/entry_set/" ++ sprintInt i ++ "/",
            Header.empty, some (Marshal (marshalEntry e))⟩] := by
  unfold UpdateEntry NewRequest
  cases env.newRequestErr "PUT"
      (c.BaseURL ++ "/dns/domain/" ++ n ++ "/entry_set/" ++ sprintInt i ++ "/") with
  | some x => rfl
  | none =>
    simp only
    split <;> exact doRequest_sent _ _ _ _

theorem DeleteEntry_log (env : Env) (c : Client) (n : String) (i : Int)
    (sent : List Request) :
    (DeleteEntry env c n i sent).sent =
      match env.newRequestErr "DELETE"
          (c.BaseURL ++ "/dns/domain/" ++ n ++ "/entry_set/" ++ sprintInt i ++ "/") with
      | some _ => sent
      | none => sent ++ [setHeaders c
          ⟨"DELETE", c.BaseURL ++ "/dns/domain/" ++ n ++ "/entry_set/" ++ sprintInt i ++ "/",
            Header.empty, none⟩] := by
  unfold DeleteEntry NewRequest
  cases env.newRequestErr "DELETE"
      (c.BaseURL ++ "/dns/domain/" ++ n ++ "/entry_set/" ++ sprintInt i ++ "/") with
  | some x => rfl
  | none => exact doRequest_sent _ _ _ _

theorem buildsRequest_of_log (env : Env) (c : Client) (sent after : List Request)
    (m u : String) (b : Option String)
    (h : after = match env.newRequestErr m u with
      | some _ => sent
      | none => sent ++ [setHeaders c ⟨m, u, Header.empty, b⟩]) :
    buildsRequest env sent after m u := by
  cases hn : env.newRequestErr m u with
  | some x =>
    rw [hn] at h
    simp only at h
    refine ⟨?_, ?_, ?_⟩
    · intro r hr
      rw [h] at hr
      exact absurd hr (ne_append_singleton sent r)
    · intro hx; rw [hn] at hx; cases hx
    · intro _; exact h
  | none =>
    rw [hn] at h
    simp only at h
    refine ⟨?_, ?_, ?_⟩
    · intro r hr
      rw [h] at hr
      have := append_singleton_cancel sent _ _ hr
      rw [← this]
      exact ⟨rfl, rfl⟩
    · intro _; exact ⟨_, h⟩
    · intro hx; exact absurd hn hx

/-- C11: each operation builds its request with the method and the URL of the
wire-protocol table, the domain name inserted as it is and the entry id in
decimal. -/
theorem operations_use_wire_protocol_table (env : Env) (c : Client) (n : String) (i : Int)
    (ip : String) (e : Entry) (sent : List Request) :
    buildsRequest env sent (ListDomains env c sent).sent
      "GET" (c.BaseURL ++ "/dns/domain/") ∧
    buildsRequest env sent (CreateDomain env c n ip sent).sent
      "POST" (c.BaseURL ++ "/dns/domain/") ∧
    buildsRequest env sent (DeleteDomain env c n sent).sent
      "DELETE" (c.BaseURL ++ "/dns/domain/" ++ n ++ "/") ∧
    buildsRequest env sent (ListEntries env c n sent).sent
      "GET" (c.BaseURL ++ "/dns/domain/" ++ n ++ "/entry_set/") ∧
    buildsRequest env sent (CreateEntry env c n e sent).sent
      "POST" (c.BaseURL ++ "/dns/domain/" ++ n ++ "/entry_set/") ∧
    buildsRequest env sent (UpdateEntry env c n i e sent).sent
      "PUT" (c.BaseURL ++ "/dns/domain/" ++ n ++ "/entry_set/" ++ sprintInt i ++ "/") ∧
    buildsRequest env sent (DeleteEntry env c n i sent).sent
      "DELETE" (c.BaseURL ++ "/dns/domain/" ++ n ++ "/entry_set/" ++ sprintInt i ++ "/") :=
  ⟨buildsRequest_of_log env c sent _ _ _ _ (ListDomains_log env c sent),
   buildsRequest_of_log env c sent _ _ _ _ (CreateDomain_log env c n ip sent),
   buildsRequest_of_log env c sent _ _ _ _ (DeleteDomain_log env c n sent),
   buildsRequest_of_log env c sent _ _ _ _ (ListEntries_log env c n sent),
   buildsRequest_of_log env c sent _ _ _ _ (CreateEntry_log env c n e sent),
   buildsRequest_of_log env c sent _ _ _ _ (UpdateEntry_log env c n i e sent),
   buildsRequest_of_log env c sent _ _ _ _ (DeleteEntry_log env c n i sent)⟩

theorem operations_use_wire_protocol_table_witness :
    ((DeleteDomain (serverReplying 204 "") testClient "example.com" []).sent.map
        (fun r => (r.Method, r.URL))
      = [("DELETE", "http://127.0.0.1:8080/dns/domain/example.com/")]) ∧
    ((UpdateEntry (serverReplying 200 "") testClient "example.com" 42 Entry.zero []).sent.map
        (fun r => (r.Method, r.URL))
      = [("PUT", "http://127.0.0.1:8080/dns/domain/example.com/entry_set/42/")]) ∧
    (∀ r, (DeleteEntry (serverReplying 204 "") testClient "example.com" (-7) []).sent = [] ++ [r] →
      r.Method = "DELETE" ∧
      r.URL = "http://127.0.0.1:8080/dns/domain/example.com/entry_set/-7/") :=
  ⟨by decide, by decide,
   (operations_use_wire_protocol_table (serverReplying 204 "") testClient "example.com" (-7)
      "1.1.1.1" Entry.zero []).2.2.2.2.2.2.1⟩

/-! ## `ListDomains` -/

theorem ListDomains_answered (env : Env) (c : Client) (sent : List Request) (s : Int)
    (b : String) (h : answered env sent (ListDomains env c sent).sent s b) :
    ListDomains env c sent =
      if s < 200 ∨ s ≥ 300 then
        ⟨none, some (.errorf ("status: " ++ sprintInt s ++ ", body: " ++ b)),
          (ListDomains env c sent).sent⟩
      else
        ⟨(Unmarshal decodeDomains b none).1, (Unmarshal decodeDomains b none).2,
          (ListDomains env c sent).sent⟩ := by
  have hlog := ListDomains_log env c sent
  obtain ⟨r, hr, hrt⟩ := h
  cases hn : env.newRequestErr "GET" (c.BaseURL ++ "/dns/domain/") with
  | some x =>
    rw [hn] at hlog
    simp only at hlog
    rw [hlog] at hr
    exact absurd hr (ne_append_singleton sent r)
  | none =>
    rw [hn] at hlog
    simp only at hlog
    rw [hlog] at hr
    have hreq := append_singleton_cancel sent _ _ hr
    rw [← hreq] at hrt
    have hd := doRequest_of_roundTrip env c _ sent s b hrt
    rw [hlog]
    unfold ListDomains NewRequest
    by_cases hs : s < 200 ∨ s ≥ 300
    · simp only [hs, if_true] at hd ⊢
      simp [hn, hd]
    · simp only [hs, if_false] at hd ⊢
      simp [hn, hd]

theorem Fits_marshalDomains (n : Nat) (ds : Option (List Domain)) :
    Fits (n + 5) (marshalSlice marshalDomain ds) := by
  cases ds with
  | none => exact Fits.null _
  | some l =>
    apply Fits.arr
    intro x hx
    obtain ⟨d, _, hd⟩ := List.mem_map.mp hx
    subst hd
    exact Fits_marshalDomain _ d

theorem decodeDomains_marshalSlice (ds : Option (List Domain))
    (h : ∀ l, ds = some l → ∀ d ∈ l, d.wf) :
    decodeDomains none (marshalSlice marshalDomain ds) = (ds, none) := by
  cases ds with
  | none => rfl
  | some l =>
    simp [decodeDomains, decodeSlice, marshalSlice, decodeDomains_marshal l (h l rfl)]

/-- C12: when the server answers the list request with a 2xx status and the
JSON encoding of the domains `ds` (followed by white space or not),
`ListDomains` returns no error and exactly `ds`: the same length, the same
order, and at every index the same name, created, updated and tags. The body
`[]` gives the empty sequence and no error, while a response outside 2xx gives
no sequence and an error. -/
theorem ListDomains_returns_encoded_domains (env : Env) (c : Client) (sent : List Request)
    (s : Int) (ds : Option (List Domain)) (ws : String)
    (hs : 200 ≤ s ∧ s ≤ 299)
    (hwf : ∀ l, ds = some l → ∀ d ∈ l, d.wf)
    (hws : ∀ ch ∈ ws.data, ch = ' ' ∨ ch = '\t' ∨ ch = '\r' ∨ ch = '\n')
    (h : answered env sent (ListDomains env c sent).sent s
      (Marshal (marshalSlice marshalDomain ds) ++ ws)) :
    (ListDomains env c sent).val = ds ∧
    (ListDomains env c sent).err = none ∧
    ((ListDomains env c sent).val.getD []).length = (ds.getD []).length ∧
    (∀ (i : Nat) (d : Domain), (ds.getD [])[i]? = some d →
      ∃ o, ((ListDomains env c sent).val.getD [])[i]? = some o ∧
        o.Name = d.Name ∧ o.Created = d.Created ∧ o.Updated = d.Updated ∧ o.Tags = d.Tags) ∧
    (ds = some [] → (ListDomains env c sent).val = some []) ∧
    (∀ (env2 : Env) (c2 : Client) (sent2 : List Request) (s2 : Int) (b2 : String),
      ¬ (200 ≤ s2 ∧ s2 ≤ 299) →
      answered env2 sent2 (ListDomains env2 c2 sent2).sent s2 b2 →
      (ListDomains env2 c2 sent2).val = none ∧
      (ListDomains env2 c2 sent2).err
        = some (.errorf ("status: " ++ sprintInt s2 ++ ", body: " ++ b2))) := by
  have hns : ¬ (s < 200 ∨ s ≥ 300) := by omega
  have hp := parseJson_Marshal_ws (marshalSlice marshalDomain ds)
    (Fits_marshalDomains _ ds) ws hws
  have hu : Unmarshal decodeDomains (Marshal (marshalSlice marshalDomain ds) ++ ws) none
      = (ds, none) := by
    simp only [Unmarshal, hp]
    exact decodeDomains_marshalSlice ds hwf
  have hval : (ListDomains env c sent).val = ds := by
    rw [ListDomains_answered env c sent s _ h]
    simp [hns, hu]
  have herr : (ListDomains env c sent).err = none := by
    rw [ListDomains_answered env c sent s _ h]
    simp [hns, hu]
  refine ⟨hval, herr, by rw [hval], ?_, ?_, ?_⟩
  · intro i d hd
    rw [hval]
    exact ⟨d, hd, rfl, rfl, rfl, rfl⟩
  · intro he
    rw [hval, he]
  · intro env2 c2 sent2 s2 b2 hs2 h2
    have hs2' : s2 < 200 ∨ s2 ≥ 300 := by omega
    rw [ListDomains_answered env2 c2 sent2 s2 b2 h2]
    simp [hs2']

theorem ListDomains_returns_encoded_domains_witness :
    (ListDomains (serverReplying 200 "[]") testClient []).val = some [] ∧
    (ListDomains (serverReplying 200 "[]") testClient []).err = none ∧
    (ListDomains (serverReplying 200 (Marshal (marshalSlice marshalDomain
        (some [⟨"example.com", "2024-01-01", "2024-01-01", none, some ["test"]⟩])) ++ "\n"))
        testClient []).val
      = some [⟨"example.com", "2024-01-01", "2024-01-01", none, some ["test"]⟩] :=
  ⟨(ListDomains_returns_encoded_domains (serverReplying 200 "[]") testClient [] 200 (some [])
      "" (by decide) (by decide) (by decide) ⟨_, rfl, rfl⟩).1,
   (ListDomains_returns_encoded_domains (serverReplying 200 "[]") testClient [] 200 (some [])
      "" (by decide) (by decide) (by decide) ⟨_, rfl, rfl⟩).2.1,
   (ListDomains_returns_encoded_domains (serverReplying 200 (Marshal (marshalSlice marshalDomain
        (some [⟨"example.com", "2024-01-01", "2024-01-01", none, some ["test"]⟩])) ++ "\n"))
      testClient [] 200
      (some [⟨"example.com", "2024-01-01", "2024-01-01", none, some ["test"]⟩]) "\n"
      (by decide) (by simp; decide) (by decide) ⟨_, rfl, rfl⟩).1⟩

/-! ## `NewClient` -/

theorem hasSuffix_slash_iff (l : List Char) :
    ['/'].isSuffixOf l = true ↔ l.getLast? = some '/' := by
  rw [List.isSuffixOf_iff_suffix]
  constructor
  · rintro ⟨t, rfl⟩
    simp
  · intro h
    obtain ⟨t, ht⟩ := List.getLast?_eq_some_iff.mp h
    exact ⟨t, ht.symm⟩

theorem TrimSuffix_slash_of_not (s : String) (h : s.data.getLast? ≠ some '/') :
    TrimSuffix s "/" = s := by
  have h1 : ['/'].isSuffixOf s.data = false := by
    cases hb : ['/'].isSuffixOf s.data with
    | false => rfl
    | true => exact absurd ((hasSuffix_slash_iff _).mp hb) h
  have h2 : ("/" : String).data = ['/'] := rfl
  simp [TrimSuffix, h2, h1]

theorem TrimSuffix_slash_append (t : List Char) :
    TrimSuffix (String.mk (t ++ ['/'])) "/" = String.mk t := by
  have h1 : ['/'].isSuffixOf (t ++ ['/']) = true := by
    rw [List.isSuffixOf_iff_suffix]
    exact ⟨t, rfl⟩
  have h2 : ("/" : String).data = ['/'] := rfl
  simp [TrimSuffix, h2, h1]

theorem TrimSuffix_slash_ends_iff (s : String) :
    (TrimSuffix s "/").data.getLast? = some '/' ↔ ['/', '/'].isSuffixOf s.data = true := by
  rw [List.isSuffixOf_iff_suffix]
  by_cases h : s.data.getLast? = some '/'
  · obtain ⟨t, ht⟩ := List.getLast?_eq_some_iff.mp h
    have hs : s = String.mk (t ++ ['/']) := by
      cases s; simp at ht; simp [ht]
    rw [hs, TrimSuffix_slash_append]
    constructor
    · intro h2
      obtain ⟨u, hu⟩ := List.getLast?_eq_some_iff.mp h2
      refine ⟨u, ?_⟩
      simp at hu
      simp [hu]
    · rintro ⟨u, hu⟩
      apply List.getLast?_eq_some_iff.mpr
      refine ⟨u, ?_⟩
      have : u ++ ['/'] ++ ['/'] = t ++ ['/'] := by simpa using hu
      simpa using (List.append_cancel_right this).symm
  · rw [TrimSuffix_slash_of_not s h]
    constructor
    · intro h2; exact absurd h2 h
    · rintro ⟨u, hu⟩
      exfalso
      apply h
      apply List.getLast?_eq_some_iff.mpr
      exact ⟨u ++ ['/'], by simp [← hu]⟩

/-- C13 fails on the code: `NewClient` removes one trailing slash only, so a
base URL that ends with two slashes keeps one. In general the resulting
`BaseURL` ends with `/` exactly when the given base URL ends with `//`. -/
theorem NewClient_keeps_a_slash_of_two :
    (NewClient "test-key" "https://fornex.com/api//").BaseURL = "https://fornex.com/api/" ∧
    (NewClient "test-key" "https://fornex.com/api//").BaseURL.data.getLast? = some '/' ∧
    (∀ apiKey baseURL : String,
      ((NewClient apiKey baseURL).BaseURL.data.getLast? = some '/' ↔
        HasSuffix baseURL "//" = true)) := by
  refine ⟨by decide, by decide, ?_⟩
  intro apiKey baseURL
  by_cases he : baseURL = ""
  · subst he
    have hb : (NewClient apiKey "").BaseURL = "https://fornex.com/api" := by rfl
    rw [hb]
    constructor
    · intro h; exact absurd h (by decide)
    · intro h; exact absurd h (by decide)
  · simp only [NewClient, he, if_false, HasSuffix]
    exact TrimSuffix_slash_ends_iff baseURL

/-- C14: `NewClient(apiKey, "")` has the base URL `https://fornex.com/api` and
the API key `apiKey`; for a non-empty `baseURL` that does not end with `/`,
`NewClient(apiKey, baseURL)` keeps `baseURL` and `apiKey` as they are. -/
theorem NewClient_default_and_unchanged (apiKey : String) :
    (NewClient apiKey "").BaseURL = "https://fornex.com/api" ∧
    (NewClient apiKey "").APIKey = apiKey ∧
    (∀ baseURL : String, baseURL ≠ "" → baseURL.data.getLast? ≠ some '/' →
      (NewClient apiKey baseURL).BaseURL = baseURL ∧
      (NewClient apiKey baseURL).APIKey = apiKey) := by
  refine ⟨by rfl, rfl, ?_⟩
  intro baseURL he hs
  simp only [NewClient, he, if_false]
  exact ⟨TrimSuffix_slash_of_not baseURL hs, trivial⟩

theorem NewClient_default_and_unchanged_witness :
    (NewClient "test-key" "http://127.0.0.1:8080").BaseURL = "http://127.0.0.1:8080" ∧
    (NewClient "test-key" "http://127.0.0.1:8080").APIKey = "test-key" ∧
    (NewClient "test-key" "").BaseURL = "https://fornex.com/api" :=
  ⟨((NewClient_default_and_unchanged "test-key").2.2 "http://127.0.0.1:8080" (by decide)
      (by decide)).1,
   ((NewClient_default_and_unchanged "test-key").2.2 "http://127.0.0.1:8080" (by decide)
      (by decide)).2,
   (NewClient_default_and_unchanged "test-key").1⟩

/-! ## The domain resource -/

theorem HasError_append (ds : List Diagnostic) (d : Diagnostic) :
    HasError (ds ++ [d]) = (HasError ds || decide (d.Severity = .error)) := by
  simp [HasError]

theorem HasError_appendDiags (ds new : List Diagnostic) :
    HasError (appendDiags ds new) = (HasError ds || HasError new) := by
  induction new generalizing ds with
  | nil => simp [appendDiags, HasError]
  | cons d new ih =>
    have hstep : appendDiags ds (d :: new)
        = appendDiags (if d ∈ ds then ds else ds ++ [d]) new := rfl
    rw [hstep, ih]
    by_cases hd : d ∈ ds
    · simp only [hd, if_true]
      have : HasError (d :: new) = (decide (d.Severity = .error) || HasError new) := by
        simp [HasError]
      rw [this]
      by_cases he : d.Severity = .error
      · have : HasError ds = true := by
          simp only [HasError, List.any_eq_true]
          exact ⟨d, hd, by simp [he]⟩
        simp [this]
      · simp [he]
    · simp only [hd, if_false, HasError_append]
      have : HasError (d :: new) = (decide (d.Severity = .error) || HasError new) := by
        simp [HasError]
      rw [this, Bool.or_assoc]

theorem subset_appendDiags (ds new : List Diagnostic) : ∀ d ∈ ds, d ∈ appendDiags ds new := by
  induction new generalizing ds with
  | nil => intro d hd; exact hd
  | cons x new ih =>
    intro d hd
    have hstep : appendDiags ds (x :: new)
        = appendDiags (if x ∈ ds then ds else ds ++ [x]) new := rfl
    rw [hstep]
    apply ih
    split_ifs
    · exact hd
    · exact List.mem_append_left _ hd

theorem mem_appendDiags (ds new : List Diagnostic) : ∀ d ∈ new, d ∈ appendDiags ds new := by
  induction new generalizing ds with
  | nil => intro d hd; cases hd
  | cons x new ih =>
    intro d hd
    have hstep : appendDiags ds (x :: new)
        = appendDiags (if x ∈ ds then ds else ds ++ [x]) new := rfl
    rw [hstep]
    rcases List.mem_cons.mp hd with h | h
    · subst h
      apply subset_appendDiags
      split_ifs with hx
      · exact hx
      · simp
    · exact ih _ d h

theorem CreateDomain_val_of_ok (env : Env) (c : Client) (name ip : String)
    (sent : List Request) (h : (CreateDomain env c name ip sent).err = none) :
    ∃ d, (CreateDomain env c name ip sent).val = some d := by
  unfold CreateDomain at h ⊢
  simp only at h ⊢
  split at h
  · simp at h
  · split at h
    · simp at h
    · rename_i hreq _ herr
      simp only [herr]
      exact ⟨_, rfl⟩

theorem GetDomain_val_of_ok (env : Env) (c : Client) (name : String)
    (sent : List Request) (h : (GetDomain env c name sent).err = none) :
    ∃ d, (GetDomain env c name sent).val = some d := by
  unfold GetDomain at h ⊢
  simp only at h ⊢
  split at h
  · simp at h
  · split at h
    · rename_i herr _ d hd
      simp only [herr, hd]
      exact ⟨_, rfl⟩
    · simp at h

theorem HasError_plan (l : List Diagnostic) (h : HasError l = false) :
    HasError (appendDiags [] l) = false := by
  rw [HasError_appendDiags, h]
  rfl

/-- C15: `DomainResource.Create` with a null ip adds the error `Missing IP`,
calls no client operation, sends nothing and writes no state; with a non-null
ip it calls `CreateDomain(name, ip)` exactly once and, when that succeeds,
writes the state whose name is the name the API returned and whose ip is
null. A successful `Read` writes such a state as well, whatever ip the prior
state held; no state that `Create` or `Read` writes has an ip. -/
theorem DomainResource_ip_only_at_creation (fw : Framework) (env : Env) (r : DomainResource)
    (sent : List Request) :
    (∀ req : DomainCreateRequest, HasError req.PlanDiags = false → req.Plan.IP = .null →
      errorDiag "Missing IP" "The ip attribute is required when creating a domain." .none
        ∈ (DomainResource.Create fw env r req sent).Diagnostics ∧
      HasError (DomainResource.Create fw env r req sent).Diagnostics = true ∧
      (DomainResource.Create fw env r req sent).calls = [] ∧
      (DomainResource.Create fw env r req sent).sent = sent ∧
      (DomainResource.Create fw env r req sent).State = none) ∧
    (∀ (req : DomainCreateRequest) (c : Client), HasError req.PlanDiags = false →
      req.Plan.IP ≠ .null → r.client = some c →
      (DomainResource.Create fw env r req sent).calls
        = [.CreateDomain req.Plan.Name.ValueString req.Plan.IP.ValueString] ∧
      (DomainResource.Create fw env r req sent).sent
        = (CreateDomain env c req.Plan.Name.ValueString req.Plan.IP.ValueString sent).sent ∧
      ((CreateDomain env c req.Plan.Name.ValueString req.Plan.IP.ValueString sent).err = none →
        ∃ d, (CreateDomain env c req.Plan.Name.ValueString req.Plan.IP.ValueString sent).val
            = some d ∧
          (DomainResource.Create fw env r req sent).State
            = some { Name := .value d.Name, IP := .null }) ∧
      ((CreateDomain env c req.Plan.Name.ValueString req.Plan.IP.ValueString sent).err ≠ none →
        (DomainResource.Create fw env r req sent).State = none)) ∧
    (∀ (req : DomainReadRequest) (c : Client), HasError req.StateDiags = false →
      r.client = some c →
      (DomainResource.Read fw env r req sent).calls
        = [.GetDomain req.State.Name.ValueString] ∧
      ((GetDomain env c req.State.Name.ValueString sent).err = none →
        ∃ d, (GetDomain env c req.State.Name.ValueString sent).val = some d ∧
          (DomainResource.Read fw env r req sent).State
            = some { Name := .value d.Name, IP := .null }) ∧
      ((GetDomain env c req.State.Name.ValueString sent).err ≠ none →
        (DomainResource.Read fw env r req sent).State = none)) ∧
    (∀ (req : DomainCreateRequest) (st : DomainResourceModel),
      (DomainResource.Create fw env r req sent).State = some st → st.IP = .null) ∧
    (∀ (req : DomainReadRequest) (st : DomainResourceModel),
      (DomainResource.Read fw env r req sent).State = some st → st.IP = .null) := by
  refine ⟨?_, ?_, ?_, ?_, ?_⟩
  · intro req hp hip
    have hd := HasError_plan _ hp
    have hnull : req.Plan.IP.IsNull = true := by rw [hip]; rfl
    simp only [DomainResource.Create, hd, hnull, Bool.false_eq_true, if_false, if_true]
    refine ⟨mem_appendDiags _ _ _ (by simp), ?_, trivial, trivial, trivial⟩
    rw [HasError_appendDiags]
    simp [HasError, errorDiag]
  · intro req c hp hip hc
    have hd := HasError_plan _ hp
    have hnull : req.Plan.IP.IsNull = false := by
      cases h : req.Plan.IP with
      | null => exact absurd h hip
      | unknown => rfl
      | value s => rfl
    simp only [DomainResource.Create, hd, hnull, hc, Bool.false_eq_true, if_false]
    cases herr : (CreateDomain env c req.Plan.Name.ValueString req.Plan.IP.ValueString
        sent).err with
    | some e => simp
    | none =>
      obtain ⟨d, hd2⟩ := CreateDomain_val_of_ok env c _ _ sent herr
      simp [hd2]
  · intro req c hp hc
    have hd := HasError_plan _ hp
    simp only [DomainResource.Read, hd, hc, Bool.false_eq_true, if_false]
    cases herr : (GetDomain env c req.State.Name.ValueString sent).err with
    | some e => simp
    | none =>
      obtain ⟨d, hd2⟩ := GetDomain_val_of_ok env c _ sent herr
      simp [hd2]
  · intro req st h
    simp only [DomainResource.Create] at h
    repeat' split at h
    all_goals simp at h
    all_goals rw [← h]
  · intro req st h
    simp only [DomainResource.Read] at h
    repeat' split at h
    all_goals simp at h
    all_goals rw [← h]

theorem DomainResource_ip_only_at_creation_witness :
    ((DomainResource.Create quietFramework (serverReplying 201 "\x7b\"name\":\"new.com\"\x7d")
        ⟨some testClient⟩ ⟨[], ⟨.value "new.com", .null⟩⟩ []).calls = []) ∧
    ((DomainResource.Create quietFramework (serverReplying 201 "\x7b\"name\":\"new.com\"\x7d")
        ⟨some testClient⟩ ⟨[], ⟨.value "new.com", .null⟩⟩ []).State = none) ∧
    ((DomainResource.Create quietFramework (serverReplying 201 "\x7b\"name\":\"new.com\"\x7d")
        ⟨some testClient⟩ ⟨[], ⟨.value "new.com", .value "1.1.1.1"⟩⟩ []).calls
      = [.CreateDomain "new.com" "1.1.1.1"]) ∧
    ((DomainResource.Create quietFramework (serverReplying 201 "\x7b\"name\":\"new.com\"\x7d")
        ⟨some testClient⟩ ⟨[], ⟨.value "new.com", .value "1.1.1.1"⟩⟩ []).State
      = some ⟨.value "new.com", .null⟩) ∧
    ((DomainResource.Read quietFramework twoDomains ⟨some testClient⟩
        ⟨[], ⟨.value "b.com", .value "9.9.9.9"⟩⟩ []).State = some ⟨.value "b.com", .null⟩) ∧
    (∀ st, (DomainResource.Read quietFramework twoDomains ⟨some testClient⟩
        ⟨[], ⟨.value "b.com", .value "9.9.9.9"⟩⟩ []).State = some st → st.IP = .null) :=
  ⟨((DomainResource_ip_only_at_creation quietFramework
      (serverReplying 201 "\x7b\"name\":\"new.com\"\x7d") ⟨some testClient⟩ []).1
      ⟨[], ⟨.value "new.com", .null⟩⟩ rfl rfl).2.2.1,
   ((DomainResource_ip_only_at_creation quietFramework
      (serverReplying 201 "\x7b\"name\":\"new.com\"\x7d") ⟨some testClient⟩ []).1
      ⟨[], ⟨.value "new.com", .null⟩⟩ rfl rfl).2.2.2.2,
   ((DomainResource_ip_only_at_creation quietFramework
      (serverReplying 201 "\x7b\"name\":\"new.com\"\x7d") ⟨some testClient⟩ []).2.1
      ⟨[], ⟨.value "new.com", .value "1.1.1.1"⟩⟩ testClient rfl (by decide) rfl).1,
   by decide,
   by decide,
   (DomainResource_ip_only_at_creation quietFramework twoDomains ⟨some testClient⟩ []).2.2.2.2
      ⟨[], ⟨.value "b.com", .value "9.9.9.9"⟩⟩⟩

/-! ## Import of a record -/

theorem parseInt_inInt64 (cs : List Char) (i : Int) (h : parseInt cs = some i) : inInt64 i := by
  unfold parseInt at h
  simp only at h
  split at h
  · simp at h
  · split_ifs at h with hr
    · simp at h; rw [← h]; exact hr

theorem ImportState_of_parts (fw : Framework) (s a b : String) (i : Int)
    (hsplit : Split s ':' = [a, b]) (ha : a ≠ "") (hb : b ≠ "")
    (hi : parseInt b.data = some i) :
    RecordResource.ImportState fw ⟨s⟩ =
      ⟨appendDiags (appendDiags [] (fw.setAttribute "domain_name" (.inl a)))
          (fw.setAttribute "id" (.inr i)),
        [("domain_name", .inl a), ("id", .inr i)]⟩ := by
  simp [RecordResource.ImportState, hsplit, ha, hb, hi]

theorem ImportState_reject (fw : Framework) (s : String)
    (h : ¬ ∃ a b i, Split s ':' = [a, b] ∧ a ≠ "" ∧ b ≠ "" ∧ parseInt b.data = some i) :
    RecordResource.ImportState fw ⟨s⟩ = ⟨[unexpectedImportIdentifier s], []⟩ := by
  have hone : appendDiags [] [unexpectedImportIdentifier s] = [unexpectedImportIdentifier s] :=
    rfl
  unfold RecordResource.ImportState
  simp only [hone]
  split_ifs with hc
  · rfl
  · push_neg at hc
    obtain ⟨hlen, h0, h1⟩ := hc
    cases hp : parseInt ((Split s ':').getD 1 "").data with
    | none => rfl
    | some i =>
      exfalso
      apply h
      match hs : Split s ':', hlen with
      | [a, b], _ =>
        rw [hs] at h0 h1 hp
        exact ⟨a, b, i, rfl, by simpa using h0, by simpa using h1, by simpa using hp⟩

/-- C16: `RecordResource.ImportState` accepts the identifier `s` if and only if
splitting `s` on `:` gives exactly two parts, both non-empty, of which the
second parses as a base-10 signed 64-bit integer. On acceptance it sets
`domain_name` to the first part and `id` to the parsed integer; otherwise it
adds the error `Unexpected Import Identifier` and sets no attribute. -/
theorem ImportState_accepts_iff (fw : Framework) (s : String) :
    (∀ (a b : String) (i : Int), Split s ':' = [a, b] → a ≠ "" → b ≠ "" →
      parseInt b.data = some i →
      (RecordResource.ImportState fw ⟨s⟩).setCalls
        = [("domain_name", .inl a), ("id", .inr i)] ∧
      (RecordResource.ImportState fw ⟨s⟩).Diagnostics
        = appendDiags (appendDiags [] (fw.setAttribute "domain_name" (.inl a)))
            (fw.setAttribute "id" (.inr i)) ∧
      inInt64 i) ∧
    ((¬ ∃ (a b : String) (i : Int),
        Split s ':' = [a, b] ∧ a ≠ "" ∧ b ≠ "" ∧ parseInt b.data = some i) →
      (RecordResource.ImportState fw ⟨s⟩).setCalls = [] ∧
      (RecordResource.ImportState fw ⟨s⟩).Diagnostics = [unexpectedImportIdentifier s]) ∧
    ((RecordResource.ImportState fw ⟨s⟩).setCalls ≠ [] ↔
      ∃ (a b : String) (i : Int),
        Split s ':' = [a, b] ∧ a ≠ "" ∧ b ≠ "" ∧ parseInt b.data = some i) := by
  refine ⟨?_, ?_, ?_⟩
  · intro a b i hs ha hb hi
    rw [ImportState_of_parts fw s a b i hs ha hb hi]
    exact ⟨rfl, rfl, parseInt_inInt64 _ i hi⟩
  · intro h
    rw [ImportState_reject fw s h]
    exact ⟨rfl, rfl⟩
  · constructor
    · intro hne
      by_contra h
      rw [ImportState_reject fw s h] at hne
      exact hne rfl
    · rintro ⟨a, b, i, hs, ha, hb, hi⟩
      rw [ImportState_of_parts fw s a b i hs ha hb hi]
      simp

theorem ImportState_accepts_iff_witness :
    ((RecordResource.ImportState quietFramework ⟨"example.com:42"⟩).setCalls
      = [("domain_name", .inl "example.com"), ("id", .inr 42)]) ∧
    ((RecordResource.ImportState quietFramework ⟨"example.com:42"⟩).Diagnostics = []) ∧
    ((RecordResource.ImportState quietFramework ⟨"example.com"⟩)
      = ⟨[unexpectedImportIdentifier "example.com"], []⟩) ∧
    ((RecordResource.ImportState quietFramework ⟨":42"⟩)
      = ⟨[unexpectedImportIdentifier ":42"], []⟩) ∧
    ((RecordResource.ImportState quietFramework ⟨"example.com:"⟩)
      = ⟨[unexpectedImportIdentifier "example.com:"], []⟩) ∧
    ((RecordResource.ImportState quietFramework ⟨"a:b:3"⟩)
      = ⟨[unexpectedImportIdentifier "a:b:3"], []⟩) ∧
    ((RecordResource.ImportState quietFramework ⟨"example.com:x"⟩)
      = ⟨[unexpectedImportIdentifier "example.com:x"], []⟩) :=
  ⟨((ImportState_accepts_iff quietFramework "example.com:42").1 "example.com" "42" 42
      (by decide) (by decide) (by decide) (by decide)).1,
   ((ImportState_accepts_iff quietFramework "example.com:42").1 "example.com" "42" 42
      (by decide) (by decide) (by decide) (by decide)).2.1,
   by rfl, by rfl, by rfl, by rfl, by rfl⟩

end Fornex
